import Mathlib

/-!
# MT19937 generator of `Randomizer/mtrand.c`

Shallow embedding of the Mersenne Twister generator (`MTrand_init`,
`MTrand_twiddle`, `MTrand_gen_state`, `MTrand_int32`, `MTrand_get`).

* `unsigned long` values are natural numbers; every operation that can
  overflow is reduced modulo `2 ^ w`, where `w` is the width of
  `unsigned long` in bits (64 on LP64 hosts, 32 elsewhere).
* `int` values (the loop counters and the position `p`) are integers.
* The array `state` is a list; a read or write outside the list gives `none`.
* A `for` loop whose body does not touch its counter is run by `forLoop`
  with the trip count of the loop.
-/

namespace MTrand

/-- The macro `MaxStates`. -/
def MaxStates : Int := 624

/-- The macro `m`. -/
def m : Int := 397

/-- The record `struct MTrand_Info`: the array `state` and the position `p`. -/
structure MTrand_Info where
  state : List Nat
  p : Int
deriving DecidableEq, Repr

/-- Product of two `unsigned long` values of width `w`. -/
def ulMul (w a b : Nat) : Nat := (a * b) % 2 ^ w

/-- Sum of two `unsigned long` values of width `w`. -/
def ulAdd (w a b : Nat) : Nat := (a + b) % 2 ^ w

/-- Left shift of an `unsigned long` value of width `w`. -/
def ulShl (w a k : Nat) : Nat := (a <<< k) % 2 ^ w

/-- Conversion of an `int` to `unsigned long` of width `w`. -/
def ulOfInt (w : Nat) (i : Int) : Nat := (i % (2 : Int) ^ w).toNat

/-- The read `state[i]`; `none` when `i` is outside the array. -/
def readAt (state : List Nat) (i : Int) : Option Nat :=
  if 0 ≤ i then state[i.toNat]? else none

/-- The write `state[i] = v`; `none` when `i` is outside the array. -/
def writeAt (state : List Nat) (i : Int) (v : Nat) : Option (List Nat) :=
  if 0 ≤ i ∧ i.toNat < state.length then some (state.set i.toNat v) else none

/-- Runs `body i`, `body (i+1)`, ... for `n` iterations: the loop
`for (int j = i; j < i + n; ++j) body`, stopping at the first failure. -/
def forLoop {σ : Type} (body : Int → σ → Option σ) : Nat → Int → σ → Option σ
  | 0, _, s => some s
  | n + 1, i, s => (body i s).bind (forLoop body n (i + 1))

/-- Body of the loop of `MTrand_init` (lines 73 and 77). -/
def MTrand_init_body (w : Nat) (i : Int) (state : List Nat) : Option (List Nat) := do
  let a ← readAt state (i - 1)
  let b ← readAt state (i - 1)
  let state1 ← writeAt state i
    (ulAdd w (ulMul w 1812433253 (a ^^^ (b >>> 30))) (ulOfInt w i))
  let c ← readAt state1 i
  writeAt state1 i (c &&& 0xFFFFFFFF)

/-- The function `MTrand_init`. -/
def MTrand_init (w : Nat) (rndGen : MTrand_Info) (seed : Nat) : Option MTrand_Info := do
  let state0 ← writeAt rndGen.state 0 (seed &&& 0xFFFFFFFF)
  let state1 ← forLoop (MTrand_init_body w) (MaxStates - 1).toNat 1 state0
  some { state := state1, p := MaxStates }

/-- The function `MTrand_twiddle`. -/
def MTrand_twiddle (u v : Nat) : Nat :=
  (((u &&& 0x80000000) ||| (v &&& 0x7FFFFFFF)) >>> 1)
    ^^^ (if v &&& 1 ≠ 0 then 0x9908B0DF else 0x0)

/-- Body of the first loop of `MTrand_gen_state` (line 94). -/
def MTrand_gen_state_body1 (i : Int) (state : List Nat) : Option (List Nat) := do
  let a ← readAt state (i + m)
  let u ← readAt state i
  let v ← readAt state (i + 1)
  writeAt state i (a ^^^ MTrand_twiddle u v)

/-- Body of the second loop of `MTrand_gen_state` (lines 97-98). -/
def MTrand_gen_state_body2 (i : Int) (state : List Nat) : Option (List Nat) := do
  let a ← readAt state (i + m - MaxStates)
  let u ← readAt state i
  let v ← readAt state (i + 1)
  writeAt state i (a ^^^ MTrand_twiddle u v)

/-- The function `MTrand_gen_state`. -/
def MTrand_gen_state (rndGen : MTrand_Info) : Option MTrand_Info := do
  let range : Int := MaxStates - m
  let state1 ← forLoop MTrand_gen_state_body1 (range - 0).toNat 0 rndGen.state
  let state2 ← forLoop MTrand_gen_state_body2 (MaxStates - 1 - range).toNat range state1
  let a ← readAt state2 (m - 1)
  let u ← readAt state2 (MaxStates - 1)
  let v ← readAt state2 0
  let state3 ← writeAt state2 (MaxStates - 1) (a ^^^ MTrand_twiddle u v)
  some { state := state3, p := 0 }

/-- The function `MTrand_int32`: the value returned and the generator left. -/
def MTrand_int32 (w : Nat) (rndGen : MTrand_Info) : Option (Nat × MTrand_Info) := do
  let g ← (if rndGen.p = MaxStates then MTrand_gen_state rndGen else some rndGen)
  let x0 ← readAt g.state g.p
  let g1 : MTrand_Info := { g with p := g.p + 1 }
  let x1 := x0 ^^^ (x0 >>> 11)
  let x2 := x1 ^^^ (ulShl w x1 7 &&& 0x9D2C5680)
  let x3 := x2 ^^^ (ulShl w x2 15 &&& 0xEFC60000)
  some (x3 ^^^ (x3 >>> 18), g1)

/-- The function `MTrand_get`, its `double` result taken as an exact rational. -/
def MTrand_get (w : Nat) (rndGen : MTrand_Info) : Option (ℚ × MTrand_Info) := do
  let (x, g) ← MTrand_int32 w rndGen
  some ((1 / 4294967296 : ℚ) * (x : ℚ), g)

/-- The generator left by `n` successive calls of `MTrand_int32`. -/
def afterCalls (w : Nat) : Nat → MTrand_Info → Option MTrand_Info
  | 0, g => some g
  | n + 1, g => (afterCalls w n g).bind fun g1 => (MTrand_int32 w g1).map Prod.snd

/-- The value returned by the `n`-th call of `MTrand_int32` (`n ≥ 1`) on `g`. -/
def nthCall (w : Nat) (n : Nat) (g : MTrand_Info) : Option Nat :=
  (afterCalls w (n - 1) g).bind fun g1 => (MTrand_int32 w g1).map Prod.fst

/-- Specification side of `MTrand_init`: word `i` of the seeding recurrence
`x (i+1) = (1812433253 * (x i XOR (x i >> 30)) + (i+1)) mod 2^32`, `x 0 = seed mod 2^32`. -/
def initWord (seed : Nat) : Nat → Nat
  | 0 => seed % 2 ^ 32
  | i + 1 => (1812433253 * (initWord seed i ^^^ (initWord seed i >>> 30)) + (i + 1)) % 2 ^ 32

/-- Specification side of the twist: the word sequence that is `x0` on the first
624 indices and is continued by `x (k + 624) = x (k + 397) XOR MTrand_twiddle (x k) (x (k + 1))`. -/
def mtSeq (x0 : Nat → Nat) (n : Nat) : Nat :=
  if n < 624 then x0 n
  else mtSeq x0 (n - 624 + 397)
    ^^^ MTrand_twiddle (mtSeq x0 (n - 624)) (mtSeq x0 (n - 624 + 1))
termination_by n
decreasing_by all_goals omega

/-- The 624 consecutive terms of `x` that start at index `b`. -/
@[irreducible]
def block (x : Nat → Nat) (b : Nat) : List Nat :=
  (List.range 624).map fun j => x (b + j)

/-- The recurrence that a word sequence of the generator satisfies. -/
def IsMTSeq (x : Nat → Nat) : Prop :=
  ∀ k, x (k + 624) = x (k + 397) ^^^ MTrand_twiddle (x k) (x (k + 1))

/-- Loop invariant of the twist: words below `k` are already regenerated. -/
def TwistInv (x : Nat → Nat) (b k : Nat) (st : List Nat) : Prop :=
  st.length = 624 ∧ (∀ j, j < k → st[j]? = some (x (b + 624 + j)))
    ∧ ∀ j, k ≤ j → j < 624 → st[j]? = some (x (b + j))

/-- Specification side of `MTrand_int32`: the four tempering steps
`x ^= x>>11; x ^= (x<<7) & 0x9D2C5680; x ^= (x<<15) & 0xEFC60000; x ^= x>>18`,
with shifts on natural numbers. -/
def temper (x : Nat) : Nat :=
  let t1 := x ^^^ (x >>> 11)
  let t2 := t1 ^^^ ((t1 <<< 7) &&& 0x9D2C5680)
  let t3 := t2 ^^^ ((t2 <<< 15) &&& 0xEFC60000)
  t3 ^^^ (t3 >>> 18)

/-- Specification side of `MTrand_gen_state`: body of the single in-place pass, for index `i`:
`state[i] := state[(i+397) mod 624] XOR MTrand_twiddle(state[i], state[(i+1) mod 624])`. -/
def twist_pass_body (i : Int) (state : List Nat) : Option (List Nat) := do
  let a ← readAt state ((i + 397) % 624)
  let u ← readAt state i
  let v ← readAt state ((i + 1) % 624)
  writeAt state i (a ^^^ MTrand_twiddle u v)

/-- Specification side of `MTrand_gen_state`: one in-place pass over
`i = 0, 1, ..., 623` in ascending order, then position 0. -/
def twist_single_pass (rndGen : MTrand_Info) : Option MTrand_Info := do
  let state1 ← forLoop twist_pass_body 624 0 rndGen.state
  some { state := state1, p := 0 }

theorem readAt_natCast (st : List Nat) (k : Nat) : readAt st (k : Int) = st[k]? := by
  simp [readAt]

theorem writeAt_natCast (st : List Nat) (k v : Nat) (h : k < st.length) :
    writeAt st (k : Int) v = some (st.set k v) := by
  simp [writeAt, h]

theorem forLoop_inv {σ : Type} (body : Int → σ → Option σ) (Inv : Nat → σ → Prop) :
    ∀ (n a : Nat) (s : σ), Inv a s →
      (∀ k t, a ≤ k → k < a + n → Inv k t → ∃ t', body (k : Int) t = some t' ∧ Inv (k + 1) t') →
      ∃ s', forLoop body n (a : Int) s = some s' ∧ Inv (a + n) s' := by
  intro n
  induction n with
  | zero => intro a s h0 _; exact ⟨s, rfl, h0⟩
  | succ n ih =>
    intro a s h0 h
    obtain ⟨s1, hb, h1⟩ := h a s le_rfl (by omega) h0
    obtain ⟨s2, hl, h2⟩ := ih (a + 1) s1 h1 (fun k t hk1 hk2 => h k t (by omega) (by omega))
    refine ⟨s2, ?_, ?_⟩
    · have hc : ((a : Int) + 1) = ((a + 1 : Nat) : Int) := by push_cast; rfl
      simp only [forLoop, hb, Option.some_bind, hc, hl]
    · have : a + (n + 1) = a + 1 + n := by omega
      rw [this]; exact h2

theorem mask32 (x : Nat) : x &&& 0xFFFFFFFF = x % 2 ^ 32 :=
  Nat.and_pow_two_sub_one_eq_mod x 32

theorem ulOfInt_natCast (w k : Nat) : ulOfInt w (k : Int) = k % 2 ^ w := by
  unfold ulOfInt
  have : ((k : Int) % (2 : Int) ^ w) = ((k % 2 ^ w : Nat) : Int) := by push_cast; rfl
  rw [this, Int.toNat_natCast]

theorem init_arith (w : Nat) (hw : 32 ≤ w) (y k : Nat) :
    ulAdd w (ulMul w 1812433253 y) (ulOfInt w (k : Int)) &&& 0xFFFFFFFF
      = (1812433253 * y + k) % 2 ^ 32 := by
  rw [mask32, ulOfInt_natCast]
  unfold ulAdd ulMul
  have hd : 2 ^ 32 ∣ 2 ^ w := pow_dvd_pow 2 hw
  rw [Nat.mod_mod_of_dvd _ hd, Nat.add_mod, Nat.mod_mod_of_dvd _ hd, Nat.mod_mod_of_dvd _ hd,
    ← Nat.add_mod]

theorem init_body_eq (w : Nat) (hw : 32 ≤ w) (st : List Nat) (k a : Nat) (hk : 1 ≤ k)
    (hlen : k < st.length) (ha : st[k - 1]? = some a) :
    MTrand_init_body w (k : Int) st
      = some (st.set k ((1812433253 * (a ^^^ (a >>> 30)) + k) % 2 ^ 32)) := by
  have hc : ((k : Int) - 1) = ((k - 1 : Nat) : Int) := by omega
  unfold MTrand_init_body
  rw [hc, readAt_natCast, ha]
  simp only [Option.bind_eq_bind, Option.some_bind]
  rw [writeAt_natCast _ _ _ hlen]
  simp only [Option.some_bind]
  rw [readAt_natCast, List.getElem?_set_self hlen]
  simp only [Option.some_bind]
  rw [writeAt_natCast _ _ _ (by simpa using hlen), List.set_set, init_arith w hw]

theorem mtSeq_of_lt (x0 : Nat → Nat) (n : Nat) (h : n < 624) : mtSeq x0 n = x0 n := by
  rw [mtSeq, if_pos h]

theorem mtSeq_isMTSeq (x0 : Nat → Nat) : IsMTSeq (mtSeq x0) := by
  intro k
  rw [mtSeq, if_neg (by omega)]
  have h1 : k + 624 - 624 = k := by omega
  rw [h1]

theorem block_length (x : Nat → Nat) (b : Nat) : (block x b).length = 624 := by
  unfold block
  simp

theorem block_getElem? (x : Nat → Nat) (b j : Nat) (hj : j < 624) :
    (block x b)[j]? = some (x (b + j)) := by
  unfold block
  simp [List.getElem?_map, List.getElem?_range hj]

theorem eq_block (x : Nat → Nat) (b : Nat) (st : List Nat) (hlen : st.length = 624)
    (h : ∀ j, j < 624 → st[j]? = some (x (b + j))) : st = block x b := by
  apply List.ext_getElem?
  intro n
  by_cases hn : n < 624
  · rw [h n hn, block_getElem? x b n hn]
  · rw [List.getElem?_eq_none (by omega),
      List.getElem?_eq_none (by rw [block_length]; omega)]

theorem block_mtSeq_zero (st : List Nat) (hlen : st.length = 624) :
    st = block (mtSeq fun j => st.getD j 0) 0 := by
  apply eq_block _ _ _ hlen
  intro j hj
  rw [Nat.zero_add, mtSeq_of_lt _ _ hj, List.getD_eq_getElem?_getD,
    List.getElem?_eq_getElem (by omega)]
  rfl

theorem gen_body1_eq (st : List Nat) (k a u v : Nat) (hk : k < st.length)
    (ha : st[k + 397]? = some a) (hu : st[k]? = some u) (hv : st[k + 1]? = some v) :
    MTrand_gen_state_body1 (k : Int) st = some (st.set k (a ^^^ MTrand_twiddle u v)) := by
  have h1 : (k : Int) + m = ((k + 397 : Nat) : Int) := by simp only [m]; omega
  have h2 : (k : Int) + 1 = ((k + 1 : Nat) : Int) := by omega
  unfold MTrand_gen_state_body1
  rw [h1, h2, readAt_natCast, readAt_natCast, readAt_natCast, ha, hu, hv]
  simp only [Option.bind_eq_bind, Option.some_bind]
  exact writeAt_natCast _ _ _ hk

theorem gen_body2_eq (st : List Nat) (k a u v : Nat) (h227 : 227 ≤ k) (hk : k < st.length)
    (ha : st[k - 227]? = some a) (hu : st[k]? = some u) (hv : st[k + 1]? = some v) :
    MTrand_gen_state_body2 (k : Int) st = some (st.set k (a ^^^ MTrand_twiddle u v)) := by
  have h1 : (k : Int) + m - MaxStates = ((k - 227 : Nat) : Int) := by
    simp only [m, MaxStates]; omega
  have h2 : (k : Int) + 1 = ((k + 1 : Nat) : Int) := by omega
  unfold MTrand_gen_state_body2
  rw [h1, h2, readAt_natCast, readAt_natCast, readAt_natCast, ha, hu, hv]
  simp only [Option.bind_eq_bind, Option.some_bind]
  exact writeAt_natCast _ _ _ hk

theorem TwistInv_set (x : Nat → Nat) (b k : Nat) (st : List Nat) (hk : k < 624)
    (h : TwistInv x b k st) : TwistInv x b (k + 1) (st.set k (x (b + 624 + k))) := by
  obtain ⟨hl, hnew, hold⟩ := h
  refine ⟨by simp [hl], ?_, ?_⟩
  · intro j hj
    by_cases hjk : j = k
    · subst hjk; rw [List.getElem?_set_self (by omega)]
    · rw [List.getElem?_set_ne (by omega)]; exact hnew j (by omega)
  · intro j hj1 hj2
    rw [List.getElem?_set_ne (by omega)]; exact hold j (by omega) hj2

theorem MTrand_gen_state_block (x : Nat → Nat) (hx : IsMTSeq x) (b : Nat) (p : Int) :
    MTrand_gen_state { state := block x b, p := p }
      = some { state := block x (b + 624), p := 0 } := by
  have hI0 : TwistInv x b 0 (block x b) :=
    ⟨block_length x b, fun j hj => absurd hj (Nat.not_lt_zero j),
      fun j _ hj => block_getElem? x b j hj⟩
  obtain ⟨s1, hs1, hI1⟩ := forLoop_inv MTrand_gen_state_body1 (TwistInv x b) 227 0
    (block x b) hI0 (by
      intro k t _ hk2 hI
      have hI' := hI
      obtain ⟨hl, _, hold⟩ := hI
      refine ⟨_, gen_body1_eq t k _ _ _ (by omega) (hold (k + 397) (by omega) (by omega))
        (hold k le_rfl (by omega)) (hold (k + 1) (by omega) (by omega)), ?_⟩
      have e : x (b + 624 + k)
          = x (b + (k + 397)) ^^^ MTrand_twiddle (x (b + k)) (x (b + (k + 1))) := by
        have := hx (b + k)
        rw [show b + k + 624 = b + 624 + k by omega, show b + k + 397 = b + (k + 397) by omega,
          show b + k + 1 = b + (k + 1) by omega] at this
        exact this
      rw [← e]
      exact TwistInv_set x b k t (by omega) hI')
  obtain ⟨s2, hs2, hI2⟩ := forLoop_inv MTrand_gen_state_body2 (TwistInv x b) 396 227
    s1 hI1 (by
      intro k t hk1 hk2 hI
      have hI' := hI
      obtain ⟨hl, hnew, hold⟩ := hI
      refine ⟨_, gen_body2_eq t k _ _ _ hk1 (by omega) (hnew (k - 227) (by omega))
        (hold k le_rfl (by omega)) (hold (k + 1) (by omega) (by omega)), ?_⟩
      have e : x (b + 624 + k)
          = x (b + 624 + (k - 227)) ^^^ MTrand_twiddle (x (b + k)) (x (b + (k + 1))) := by
        have := hx (b + k)
        rw [show b + k + 624 = b + 624 + k by omega,
          show b + k + 397 = b + 624 + (k - 227) by omega,
          show b + k + 1 = b + (k + 1) by omega] at this
        exact this
      rw [← e]
      exact TwistInv_set x b k t (by omega) hI')
  have hI3 := TwistInv_set x b 623 s2 (by omega) hI2
  obtain ⟨hl, hnew, hold⟩ := hI2
  unfold MTrand_gen_state
  have e1 : (MaxStates - m - 0).toNat = 227 := by decide
  have e2 : (MaxStates - 1 - (MaxStates - m)).toNat = 396 := by decide
  have e3 : MaxStates - m = ((227 : Nat) : Int) := by decide
  have e4 : m - 1 = ((396 : Nat) : Int) := by decide
  have e5 : MaxStates - 1 = ((623 : Nat) : Int) := by decide
  have e6 : (0 : Int) = ((0 : Nat) : Int) := rfl
  simp only [Option.bind_eq_bind, e1, e2]
  rw [e3, e4, e5, e6, hs1]
  simp only [Option.some_bind]
  rw [hs2]
  simp only [Option.some_bind]
  rw [readAt_natCast, readAt_natCast, readAt_natCast, hnew 396 (by omega),
    hold 623 (by omega) (by omega), hnew 0 (by omega)]
  simp only [Option.some_bind]
  rw [writeAt_natCast _ _ _ (by omega)]
  simp only [Option.some_bind]
  have e : x (b + 624 + 396) ^^^ MTrand_twiddle (x (b + 623)) (x (b + 624 + 0))
      = x (b + 624 + 623) := by
    have := hx (b + 623)
    have a1 : b + 623 + 624 = b + 624 + 623 := by omega
    have a2 : b + 623 + 397 = b + 624 + 396 := by omega
    have a3 : b + 623 + 1 = b + 624 + 0 := by omega
    rw [a1, a2, a3] at this
    exact this.symm
  rw [e]
  have := eq_block x (b + 624) _ hI3.1 (fun j hj => hI3.2.1 j (by omega))
  rw [this]

theorem MTrand_init_eq (w : Nat) (hw : 32 ≤ w) (g : MTrand_Info) (seed : Nat)
    (hg : g.state.length = 624) :
    MTrand_init w g seed = some { state := block (initWord seed) 0, p := 624 } := by
  unfold MTrand_init
  have h0 : writeAt g.state 0 (seed &&& 0xFFFFFFFF) = some (g.state.set 0 (seed % 2 ^ 32)) := by
    have := writeAt_natCast g.state 0 (seed &&& 0xFFFFFFFF) (by omega)
    rw [mask32] at this ⊢
    exact this
  rw [h0]
  simp only [Option.bind_eq_bind, Option.some_bind]
  have hn : (MaxStates - 1).toNat = 623 := by decide
  rw [hn]
  obtain ⟨s', hs', hlen, hw'⟩ := forLoop_inv (MTrand_init_body w)
    (fun k st => st.length = 624 ∧ ∀ j, j < k → st[j]? = some (initWord seed j))
    623 1 (g.state.set 0 (seed % 2 ^ 32))
    ⟨by simp [hg], by
      intro j hj
      have : j = 0 := by omega
      subst this
      rw [List.getElem?_set_self (by omega)]; rfl⟩
    (by
      intro k t hk1 hk2 ⟨hl, hv⟩
      refine ⟨_, init_body_eq w hw t k (initWord seed (k - 1)) hk1 (by omega)
        (hv (k - 1) (by omega)), by simp [hl], ?_⟩
      intro j hj
      by_cases hjk : j = k
      · subst hjk
        rw [List.getElem?_set_self (by omega)]
        obtain ⟨i, rfl⟩ : ∃ i, j = i + 1 := ⟨j - 1, by omega⟩
        rfl
      · rw [List.getElem?_set_ne (by omega)]
        exact hv j (by omega))
  have h1 : ((1 : Nat) : Int) = 1 := rfl
  rw [h1] at hs'
  rw [hs']
  simp only [Option.some_bind]
  have : s' = block (initWord seed) 0 :=
    eq_block (initWord seed) 0 s' hlen (fun j hj => by rw [Nat.zero_add]; exact hw' j (by omega))
  rw [this]
  simp only [MaxStates]

theorem ulShl_and (w : Nat) (hw : 32 ≤ w) (a k M : Nat) (hM : M < 2 ^ 32) :
    ulShl w a k &&& M = (a <<< k) &&& M := by
  unfold ulShl
  have hMw : M < 2 ^ w := lt_of_lt_of_le hM (Nat.pow_le_pow_right (by decide) hw)
  rw [← Nat.and_pow_two_sub_one_eq_mod, Nat.and_assoc, Nat.and_comm (2 ^ w - 1) M,
    Nat.and_pow_two_sub_one_eq_mod, Nat.mod_eq_of_lt hMw]

theorem MTrand_int32_eq (w : Nat) (hw : 32 ≤ w) (g g1 : MTrand_Info) (x0 : Nat)
    (hg : (if g.p = MaxStates then MTrand_gen_state g else some g) = some g1)
    (hx : readAt g1.state g1.p = some x0) :
    MTrand_int32 w g = some (temper x0, { state := g1.state, p := g1.p + 1 }) := by
  unfold MTrand_int32
  rw [hg]
  simp only [Option.bind_eq_bind, Option.some_bind]
  rw [hx]
  simp only [Option.some_bind]
  rw [ulShl_and w hw _ _ _ (by decide), ulShl_and w hw _ _ _ (by decide)]
  rfl

theorem MTrand_gen_state_some (g : MTrand_Info) (hlen : g.state.length = 624) :
    MTrand_gen_state g
      = some { state := block (mtSeq fun j => g.state.getD j 0) 624, p := 0 } := by
  have h := MTrand_gen_state_block (mtSeq fun j => g.state.getD j 0) (mtSeq_isMTSeq _) 0 g.p
  rw [← block_mtSeq_zero g.state hlen] at h
  exact h

theorem MTrand_int32_block_lt (w : Nat) (hw : 32 ≤ w) (x : Nat → Nat) (b P : Nat)
    (hP : P < 624) :
    MTrand_int32 w { state := block x b, p := (P : Int) }
      = some (temper (x (b + P)), { state := block x b, p := ((P + 1 : Nat) : Int) }) := by
  have hne : ¬ ((P : Int) = MaxStates) := by simp only [MaxStates]; omega
  have h := MTrand_int32_eq w hw { state := block x b, p := (P : Int) }
    { state := block x b, p := (P : Int) } (x (b + P)) (by simp only [if_neg hne])
    (by simp only [readAt_natCast]; exact block_getElem? x b P hP)
  rw [h]
  simp only [Nat.cast_add, Nat.cast_one]

theorem MTrand_int32_block_eq (w : Nat) (hw : 32 ≤ w) (x : Nat → Nat) (hx : IsMTSeq x)
    (b : Nat) :
    MTrand_int32 w { state := block x b, p := ((624 : Nat) : Int) }
      = some (temper (x (b + 624)),
          { state := block x (b + 624), p := ((1 : Nat) : Int) }) := by
  have he : (((624 : Nat) : Int) = MaxStates) := by decide
  have h := MTrand_int32_eq w hw { state := block x b, p := ((624 : Nat) : Int) }
    { state := block x (b + 624), p := ((0 : Nat) : Int) } (x (b + 624))
    (by simp only [if_pos he]; exact MTrand_gen_state_block x hx b _)
    (by simp only [readAt_natCast]; exact block_getElem? x (b + 624) 0 (by omega))
  rw [h]
  simp only [Nat.cast_zero, Nat.cast_one, zero_add]

/-- The generator after `c` calls on a seeded generator holds a block of the
word sequence; its base `b` and position `P` satisfy `b + P = c + 624`. -/
theorem afterCalls_block (w : Nat) (hw : 32 ≤ w) (x : Nat → Nat) (hx : IsMTSeq x) (c : Nat) :
    ∃ b P : Nat, afterCalls w c { state := block x 0, p := ((624 : Nat) : Int) }
        = some { state := block x b, p := (P : Int) }
      ∧ 1 ≤ P ∧ P ≤ 624 ∧ b + P = c + 624 ∧ 624 ∣ b := by
  induction c with
  | zero => exact ⟨0, 624, by simp only [afterCalls], by omega, by omega, by omega, by omega⟩
  | succ c ih =>
    obtain ⟨b, P, hc, h1, h2, h3, h4⟩ := ih
    by_cases hP : P = 624
    · subst hP
      refine ⟨b + 624, 1, ?_, by omega, by omega, by omega, by omega⟩
      rw [afterCalls, hc, Option.some_bind, MTrand_int32_block_eq w hw x hx,
        Option.map_some']
    · refine ⟨b, P + 1, ?_, by omega, by omega, by omega, h4⟩
      rw [afterCalls, hc, Option.some_bind, MTrand_int32_block_lt w hw x _ P (by omega),
        Option.map_some']

theorem nthCall_block (w : Nat) (hw : 32 ≤ w) (x : Nat → Nat) (hx : IsMTSeq x) (n : Nat)
    (hn : 1 ≤ n) :
    nthCall w n { state := block x 0, p := ((624 : Nat) : Int) }
      = some (temper (x (623 + n))) := by
  obtain ⟨b, P, hc, h1, h2, h3, _⟩ := afterCalls_block w hw x hx (n - 1)
  by_cases hP : P = 624
  · subst hP
    rw [nthCall, hc, Option.some_bind, MTrand_int32_block_eq w hw x hx, Option.map_some',
      show b + 624 = 623 + n by omega]
  · rw [nthCall, hc, Option.some_bind, MTrand_int32_block_lt w hw x _ P (by omega),
      Option.map_some', show b + P = 623 + n by omega]

theorem cast624 : (624 : Int) = ((624 : Nat) : Int) := rfl

theorem init_words (w : Nat) (hw : 32 ≤ w) (g : MTrand_Info) (hg : g.state.length = 624)
    (seed i : Nat) (hi : i < 624) :
    (MTrand_init w g seed).bind (fun G => G.state[i]?) = some (initWord seed i) := by
  rw [MTrand_init_eq w hw g seed hg, Option.some_bind]
  have := block_getElem? (initWord seed) 0 i hi
  rw [Nat.zero_add] at this
  exact this

/-- C1: let `x` be a word sequence whose first 624 terms are the state written
by `MTrand_init` and which satisfies
`x (k + 624) = x (k + 397) XOR MTrand_twiddle (x k) (x (k + 1))` for every `k`.
Then for every `n ≥ 1` the `n`-th call of `MTrand_int32` after `MTrand_init`
returns `temper (x (623 + n))`, across any number of twists. -/
theorem C1_int32_follows_recurrence (w : Nat) (hw : 32 ≤ w) (g : MTrand_Info)
    (hg : g.state.length = 624) (seed : Nat) (x : Nat → Nat)
    (h0 : ∀ i, i < 624 → (MTrand_init w g seed).bind (fun G => G.state[i]?) = some (x i))
    (hx : ∀ k, x (k + 624) = x (k + 397) ^^^ MTrand_twiddle (x k) (x (k + 1)))
    (n : Nat) (hn : 1 ≤ n) :
    (MTrand_init w g seed).bind (nthCall w n) = some (temper (x (623 + n))) := by
  have hb : block (initWord seed) 0 = block x 0 := by
    apply eq_block x 0 _ (block_length _ _)
    intro j hj
    have h1 := h0 j hj
    rw [init_words w hw g hg seed j hj] at h1
    rw [block_getElem? _ _ j hj, Nat.zero_add]
    exact h1
  rw [MTrand_init_eq w hw g seed hg, Option.some_bind, hb, cast624]
  exact nthCall_block w hw x hx n hn

/-- Witness of C1: seed 5489 on a 64-bit host, the 625th call (the first one
after a second twist), with the sequence `mtSeq (initWord 5489)`. -/
theorem C1_int32_follows_recurrence_witness :
    (MTrand_init 64 { state := List.replicate 624 0, p := 0 } 5489).bind (nthCall 64 625)
      = some (temper (mtSeq (initWord 5489) (623 + 625))) :=
  C1_int32_follows_recurrence 64 (by decide) { state := List.replicate 624 0, p := 0 }
    (List.length_replicate 624 0) 5489 (mtSeq (initWord 5489))
    (fun i hi => by
      rw [init_words 64 (by decide) _ (List.length_replicate 624 0) 5489 i hi,
        mtSeq_of_lt _ _ hi])
    (mtSeq_isMTSeq (initWord 5489)) 625 (by decide)

/-- C2: for every seed `s`, after `MTrand_init` the state has `state[0] = s mod 2^32`
and, for every `i` with `1 ≤ i ≤ 623`,
`state[i] = (1812433253 * (state[i-1] XOR (state[i-1] >> 30)) + i) mod 2^32`. -/
theorem C2_init_recurrence (w : Nat) (hw : 32 ≤ w) (g : MTrand_Info)
    (hg : g.state.length = 624) (seed : Nat) :
    ∃ G, MTrand_init w g seed = some G ∧ G.state.length = 624
      ∧ G.state[0]? = some (seed % 2 ^ 32)
      ∧ ∀ i, 1 ≤ i → i ≤ 623 → ∃ a, G.state[i - 1]? = some a
          ∧ G.state[i]? = some ((1812433253 * (a ^^^ (a >>> 30)) + i) % 2 ^ 32) := by
  refine ⟨_, MTrand_init_eq w hw g seed hg, block_length _ _, ?_, ?_⟩
  · rw [block_getElem? _ _ 0 (by omega)]; rfl
  · intro i h1 h2
    refine ⟨initWord seed (i - 1), ?_, ?_⟩
    · rw [block_getElem? _ _ (i - 1) (by omega), Nat.zero_add]
    · rw [block_getElem? _ _ i (by omega), Nat.zero_add]
      obtain ⟨j, rfl⟩ : ∃ j, i = j + 1 := ⟨i - 1, by omega⟩
      rfl

/-- Witness of C2: seed `2^32 + 5489`, above the 32-bit range, on a 64-bit host. -/
theorem C2_init_recurrence_witness :
    ∃ G, MTrand_init 64 { state := List.replicate 624 0, p := 0 } (2 ^ 32 + 5489) = some G
      ∧ G.state.length = 624
      ∧ G.state[0]? = some ((2 ^ 32 + 5489) % 2 ^ 32)
      ∧ ∀ i, 1 ≤ i → i ≤ 623 → ∃ a, G.state[i - 1]? = some a
          ∧ G.state[i]? = some ((1812433253 * (a ^^^ (a >>> 30)) + i) % 2 ^ 32) :=
  C2_init_recurrence 64 (by decide) { state := List.replicate 624 0, p := 0 }
    (List.length_replicate 624 0) (2 ^ 32 + 5489)

theorem cond_twist (s : MTrand_Info) (hlen : s.state.length = 624) :
    ∃ s', (if s.p = 624 then MTrand_gen_state s else some s) = some s'
      ∧ s'.state.length = 624
      ∧ (s.p = 624 → s' = { state := block (mtSeq fun j => s.state.getD j 0) 624, p := 0 })
      ∧ (s.p ≠ 624 → s' = s) := by
  by_cases h : s.p = 624
  · refine ⟨_, by rw [if_pos h]; exact MTrand_gen_state_some s hlen, block_length _ _,
      fun _ => rfl, fun h' => absurd h h'⟩
  · exact ⟨s, by rw [if_neg h], hlen, fun h' => absurd h' h, fun _ => rfl⟩

theorem readAt_some (st : List Nat) (p : Int) (h0 : 0 ≤ p) (h1 : p < st.length) :
    ∃ x, readAt st p = some x ∧ x ∈ st := by
  obtain ⟨k, rfl⟩ := Int.eq_ofNat_of_zero_le h0
  have hk : k < st.length := by omega
  refine ⟨st[k], ?_, List.getElem_mem hk⟩
  rw [readAt_natCast, List.getElem?_eq_getElem hk]

theorem MTrand_int32_general (w : Nat) (hw : 32 ≤ w) (s : MTrand_Info)
    (hlen : s.state.length = 624) (hp0 : 0 ≤ s.p) (hp1 : s.p ≤ 624) :
    ∃ s' x, (if s.p = 624 then MTrand_gen_state s else some s) = some s'
      ∧ s'.state.length = 624 ∧ 0 ≤ s'.p ∧ s'.p < 624
      ∧ readAt s'.state s'.p = some x ∧ x ∈ s'.state
      ∧ MTrand_int32 w s = some (temper x, { state := s'.state, p := s'.p + 1 })
      ∧ (s.p = 624 → s' = { state := block (mtSeq fun j => s.state.getD j 0) 624, p := 0 })
      ∧ (s.p ≠ 624 → s' = s) := by
  obtain ⟨s', hs', hl', he, hne⟩ := cond_twist s hlen
  have hp' : 0 ≤ s'.p ∧ s'.p < 624 := by
    by_cases h : s.p = 624
    · rw [he h]; exact ⟨le_refl _, show (0 : Int) < 624 by decide⟩
    · rw [hne h]; exact ⟨hp0, by omega⟩
  obtain ⟨x, hx, hmem⟩ := readAt_some s'.state s'.p hp'.1 (by rw [hl']; exact hp'.2)
  exact ⟨s', x, hs', hl', hp'.1, hp'.2, hx, hmem,
    MTrand_int32_eq w hw s s' x (by simpa only [MaxStates] using hs') hx, he, hne⟩

/-- C3: for every state `s` of 624 words with `0 ≤ position ≤ 624`, let `s'` be
`MTrand_gen_state s` if the position is 624 and `s` otherwise. Then `MTrand_int32 s`
returns `temper x` for `x = s'.state[s'.position]` and leaves the words of `s'`
with position `s'.position + 1`; the twist runs exactly when the position is 624,
and when the position is below 624 no state word changes. -/
theorem C3_int32_contract (w : Nat) (hw : 32 ≤ w) (s : MTrand_Info)
    (hlen : s.state.length = 624) (hp0 : 0 ≤ s.p) (hp1 : s.p ≤ 624) :
    ∃ s' x, (if s.p = 624 then MTrand_gen_state s else some s) = some s'
      ∧ readAt s'.state s'.p = some x
      ∧ MTrand_int32 w s = some (temper x, { state := s'.state, p := s'.p + 1 })
      ∧ (s.p < 624 → s'.state = s.state ∧ s'.p = s.p) := by
  obtain ⟨s', x, hs', _, _, _, hx, _, hi, _, hne⟩ := MTrand_int32_general w hw s hlen hp0 hp1
  refine ⟨s', x, hs', hx, hi, ?_⟩
  intro h
  rw [hne (by omega)]
  exact ⟨rfl, rfl⟩

/-- Witness of C3: the all-zero state at position 624, where the twist runs. -/
theorem C3_int32_contract_witness :
    ∃ s' x, (if (624 : Int) = 624
          then MTrand_gen_state { state := List.replicate 624 0, p := 624 }
          else some { state := List.replicate 624 0, p := 624 }) = some s'
      ∧ readAt s'.state s'.p = some x
      ∧ MTrand_int32 64 { state := List.replicate 624 0, p := 624 }
          = some (temper x, { state := s'.state, p := s'.p + 1 })
      ∧ ((624 : Int) < 624 → s'.state = List.replicate 624 0 ∧ s'.p = 624) :=
  C3_int32_contract 64 (by decide) { state := List.replicate 624 0, p := 624 }
    (List.length_replicate 624 0) (by decide) (by decide)

theorem twist_pass_body_eq (st : List Nat) (k a u v : Nat) (hk : k < st.length)
    (ha : st[(k + 397) % 624]? = some a) (hu : st[k]? = some u)
    (hv : st[(k + 1) % 624]? = some v) :
    twist_pass_body (k : Int) st = some (st.set k (a ^^^ MTrand_twiddle u v)) := by
  have h1 : ((k : Int) + 397) % 624 = (((k + 397) % 624 : Nat) : Int) := by omega
  have h2 : ((k : Int) + 1) % 624 = (((k + 1) % 624 : Nat) : Int) := by omega
  unfold twist_pass_body
  rw [h1, h2, readAt_natCast, readAt_natCast, readAt_natCast, ha, hu, hv]
  simp only [Option.bind_eq_bind, Option.some_bind]
  exact writeAt_natCast _ _ _ hk

theorem twist_single_pass_block (x : Nat → Nat) (hx : IsMTSeq x) (b : Nat) (p : Int) :
    twist_single_pass { state := block x b, p := p }
      = some { state := block x (b + 624), p := 0 } := by
  have hI0 : TwistInv x b 0 (block x b) :=
    ⟨block_length x b, fun j hj => absurd hj (Nat.not_lt_zero j),
      fun j _ hj => block_getElem? x b j hj⟩
  obtain ⟨s1, hs1, hI1⟩ := forLoop_inv twist_pass_body (TwistInv x b) 624 0
    (block x b) hI0 (by
      intro k t _ hk2 hI
      have hI' := hI
      obtain ⟨hl, hnew, hold⟩ := hI
      have ha : t[(k + 397) % 624]? = some (x (b + k + 397)) := by
        by_cases h : k < 227
        · rw [show (k + 397) % 624 = k + 397 by omega, hold (k + 397) (by omega) (by omega),
            show b + (k + 397) = b + k + 397 by omega]
        · rw [show (k + 397) % 624 = k - 227 by omega, hnew (k - 227) (by omega),
            show b + 624 + (k - 227) = b + k + 397 by omega]
      have hv : t[(k + 1) % 624]? = some (x (b + k + 1)) := by
        by_cases h : k < 623
        · rw [show (k + 1) % 624 = k + 1 by omega, hold (k + 1) (by omega) (by omega),
            show b + (k + 1) = b + k + 1 by omega]
        · rw [show (k + 1) % 624 = 0 by omega, hnew 0 (by omega),
            show b + 624 + 0 = b + k + 1 by omega]
      refine ⟨_, twist_pass_body_eq t k _ _ _ (by omega) ha (hold k le_rfl (by omega)) hv, ?_⟩
      have e : x (b + 624 + k)
          = x (b + k + 397) ^^^ MTrand_twiddle (x (b + k)) (x (b + k + 1)) := by
        have := hx (b + k)
        rw [show b + k + 624 = b + 624 + k by omega] at this
        exact this
      rw [← e]
      exact TwistInv_set x b k t (by omega) hI')
  unfold twist_single_pass
  have e6 : (0 : Int) = ((0 : Nat) : Int) := rfl
  simp only [Option.bind_eq_bind]
  rw [e6, hs1]
  simp only [Option.some_bind]
  have := eq_block x (b + 624) s1 hI1.1 (fun j hj => hI1.2.1 j (by omega))
  rw [this]

/-- C4: for every state of 624 words, `MTrand_gen_state` (two loop ranges and a
final assignment to word 623) leaves exactly the 624 words of a single in-place
ascending pass with indices taken modulo 624, and sets the position to 0. -/
theorem C4_gen_state_refines_single_pass (g : MTrand_Info) (hlen : g.state.length = 624) :
    ∃ g', MTrand_gen_state g = some g' ∧ twist_single_pass g = some g'
      ∧ g'.state.length = 624 ∧ g'.p = 0 := by
  refine ⟨_, MTrand_gen_state_some g hlen, ?_, block_length _ _, rfl⟩
  have h := twist_single_pass_block (mtSeq fun j => g.state.getD j 0) (mtSeq_isMTSeq _) 0 g.p
  rw [← block_mtSeq_zero g.state hlen] at h
  exact h

/-- Witness of C4: the state holding the words 0, 1, ..., 623. -/
theorem C4_gen_state_refines_single_pass_witness :
    ∃ g', MTrand_gen_state { state := List.range 624, p := 624 } = some g'
      ∧ twist_single_pass { state := List.range 624, p := 624 } = some g'
      ∧ g'.state.length = 624 ∧ g'.p = 0 :=
  C4_gen_state_refines_single_pass { state := List.range 624, p := 624 }
    (by simp only [List.length_range])

theorem block_initWord (seed : Nat) :
    block (initWord seed) 0 = block (mtSeq (initWord seed)) 0 := by
  apply eq_block _ 0 _ (block_length _ _)
  intro j hj
  rw [block_getElem? _ _ j hj, Nat.zero_add, mtSeq_of_lt _ _ hj]

theorem mtSeq_624 (x0 : Nat → Nat) :
    mtSeq x0 624 = x0 397 ^^^ MTrand_twiddle (x0 0) (x0 1) := by
  have h := mtSeq_isMTSeq x0 0
  rw [Nat.zero_add, Nat.zero_add, Nat.zero_add, mtSeq_of_lt x0 397 (by omega),
    mtSeq_of_lt x0 0 (by omega), mtSeq_of_lt x0 1 (by omega)] at h
  exact h

theorem first_call (w : Nat) (hw : 32 ≤ w) (g : MTrand_Info) (hg : g.state.length = 624)
    (seed : Nat) :
    (MTrand_init w g seed).bind (nthCall w 1)
      = some (temper (initWord seed 397
          ^^^ MTrand_twiddle (initWord seed 0) (initWord seed 1))) := by
  rw [MTrand_init_eq w hw g seed hg, Option.some_bind, block_initWord, cast624,
    nthCall_block w hw _ (mtSeq_isMTSeq _) 1 le_rfl, show 623 + 1 = 624 by rfl, mtSeq_624]

set_option maxRecDepth 100000 in
theorem first_value_5489 :
    temper (initWord 5489 397 ^^^ MTrand_twiddle (initWord 5489 0) (initWord 5489 1))
      = 3499211612 := by
  decide!

/-- C5: after `MTrand_init` with seed 5489, the first call of `MTrand_int32`
returns 3499211612. -/
theorem C5_known_seed_vector (w : Nat) (hw : 32 ≤ w) (g : MTrand_Info)
    (hg : g.state.length = 624) :
    (MTrand_init w g 5489).bind (nthCall w 1) = some 3499211612 := by
  rw [first_call w hw g hg 5489, first_value_5489]

/-- Witness of C5: a 64-bit host and a generator record holding 624 zero words. -/
theorem C5_known_seed_vector_witness :
    (MTrand_init 64 { state := List.replicate 624 0, p := 0 } 5489).bind (nthCall 64 1)
      = some 3499211612 :=
  C5_known_seed_vector 64 (by decide) { state := List.replicate 624 0, p := 0 }
    (List.length_replicate 624 0)

theorem readAt_624 (st : List Nat) (hlen : st.length = 624) : readAt st 624 = none := by
  rw [cast624, readAt_natCast, List.getElem?_eq_none (by omega)]

/-- C6, as amended: for every seed, `MTrand_init` leaves the position at 624, which
is outside the seeded vector, so the first `MTrand_int32` call runs
`MTrand_gen_state` before reading any word: the value returned is the tempering of
word 0 of the twisted state, the word `state[397] XOR MTrand_twiddle(state[0], state[1])`
of the seeded vector. Nothing is said on whether that value equals the tempering of
a seeded word: for seed 10423787 it does. -/
theorem C6_first_call_reads_twisted_state (w : Nat) (hw : 32 ≤ w) (g : MTrand_Info)
    (hg : g.state.length = 624) (seed : Nat) :
    ∃ G T v, MTrand_init w g seed = some G ∧ G.p = 624 ∧ readAt G.state G.p = none
      ∧ MTrand_gen_state G = some T ∧ T.p = 0 ∧ readAt T.state T.p = some v
      ∧ MTrand_int32 w G = some (temper v, { state := T.state, p := 1 })
      ∧ ∃ a u u', G.state[397]? = some a ∧ G.state[0]? = some u ∧ G.state[1]? = some u'
          ∧ v = a ^^^ MTrand_twiddle u u' := by
  have hT := MTrand_gen_state_block (mtSeq (initWord seed)) (mtSeq_isMTSeq _) 0 624
  rw [← block_initWord, Nat.zero_add] at hT
  have hv : readAt (block (mtSeq (initWord seed)) 624) 0 = some (mtSeq (initWord seed) 624) := by
    rw [show (0 : Int) = ((0 : Nat) : Int) from rfl, readAt_natCast,
      block_getElem? _ _ 0 (by omega)]
  refine ⟨_, _, _, MTrand_init_eq w hw g seed hg, rfl, readAt_624 _ (block_length _ _), hT,
    rfl, hv, ?_, ?_⟩
  · have h := MTrand_int32_eq w hw { state := block (initWord seed) 0, p := 624 }
      { state := block (mtSeq (initWord seed)) 624, p := 0 } _
      (by rw [if_pos (show (624 : Int) = MaxStates by decide)]; exact hT) hv
    rw [h]
    simp only [zero_add]
  · refine ⟨_, _, _, block_getElem? _ 0 397 (by omega), block_getElem? _ 0 0 (by omega),
      block_getElem? _ 0 1 (by omega), ?_⟩
    rw [mtSeq_624]

/-- Witness of C6: seed 5489 on a 64-bit host. -/
theorem C6_first_call_reads_twisted_state_witness :
    ∃ G T v, MTrand_init 64 { state := List.replicate 624 0, p := 0 } 5489 = some G
      ∧ G.p = 624 ∧ readAt G.state G.p = none
      ∧ MTrand_gen_state G = some T ∧ T.p = 0 ∧ readAt T.state T.p = some v
      ∧ MTrand_int32 64 G = some (temper v, { state := T.state, p := 1 })
      ∧ ∃ a u u', G.state[397]? = some a ∧ G.state[0]? = some u ∧ G.state[1]? = some u'
          ∧ v = a ^^^ MTrand_twiddle u u' :=
  C6_first_call_reads_twisted_state 64 (by decide) { state := List.replicate 624 0, p := 0 }
    (List.length_replicate 624 0) 5489

set_option maxRecDepth 100000 in
/-- Numerical remark on C6: the word built by the twist can coincide with a
seeded word. For seed 10423787 the twisted word 0 equals the seeded word 356. -/
theorem seeded_word_coincidence :
    initWord 10423787 397 ^^^ MTrand_twiddle (initWord 10423787 0) (initWord 10423787 1)
      = initWord 10423787 356 := by
  decide!

set_option maxRecDepth 100000 in
theorem seeded_word_356 : initWord 10423787 356 = 3201045425 := by
  decide!

/-- Counterexample to C6 as stated: for seed 10423787 the first value returned by
`MTrand_int32` after `MTrand_init` is 1589628188, which is the tempering of word 356
of the freshly seeded vector as stored (3201045425). -/
theorem C6_value_can_be_tempering_of_seeded_word :
    ∃ G, MTrand_init 64 { state := List.replicate 624 0, p := 0 } 10423787 = some G
      ∧ G.state[356]? = some 3201045425
      ∧ nthCall 64 1 G = some (temper 3201045425)
      ∧ temper 3201045425 = 1589628188 := by
  have hi := MTrand_init_eq 64 (by decide) { state := List.replicate 624 0, p := 0 } 10423787
    (List.length_replicate 624 0)
  have hf := first_call 64 (by decide) { state := List.replicate 624 0, p := 0 }
    (List.length_replicate 624 0) 10423787
  rw [hi, Option.some_bind, seeded_word_coincidence, seeded_word_356] at hf
  refine ⟨_, hi, ?_, hf, by decide⟩
  rw [block_getElem? _ 0 356 (by decide), Nat.zero_add, seeded_word_356]

/-- C7: for every seed and every `n ≥ 1`, after `MTrand_init` and `n` calls of
`MTrand_int32` the position is `((n-1) mod 624) + 1`; the position met by the
`n`-th call is 624, so that the call runs `MTrand_gen_state`, exactly when
`n` is congruent to 1 modulo 624. -/
theorem C7_position_after_calls (w : Nat) (hw : 32 ≤ w) (g : MTrand_Info)
    (hg : g.state.length = 624) (seed n : Nat) (hn : 1 ≤ n) :
    ∃ G Gb Gn, MTrand_init w g seed = some G ∧ afterCalls w (n - 1) G = some Gb
      ∧ afterCalls w n G = some Gn ∧ Gn.p = (((n - 1) % 624 : Nat) : Int) + 1
      ∧ (Gb.p = 624 ↔ n % 624 = 1) := by
  obtain ⟨b1, P1, hc1, h11, h12, h13, h14⟩ :=
    afterCalls_block w hw (mtSeq (initWord seed)) (mtSeq_isMTSeq _) (n - 1)
  obtain ⟨b2, P2, hc2, h21, h22, h23, h24⟩ :=
    afterCalls_block w hw (mtSeq (initWord seed)) (mtSeq_isMTSeq _) n
  rw [← block_initWord, ← cast624] at hc1 hc2
  refine ⟨_, _, _, MTrand_init_eq w hw g seed hg, hc1, hc2, ?_, ?_⟩
  · show (P2 : Int) = _
    omega
  · show (P1 : Int) = 624 ↔ _
    omega

/-- Witness of C7: seed 5489 on a 64-bit host, the 625th call. -/
theorem C7_position_after_calls_witness :
    ∃ G Gb Gn, MTrand_init 64 { state := List.replicate 624 0, p := 0 } 5489 = some G
      ∧ afterCalls 64 (625 - 1) G = some Gb
      ∧ afterCalls 64 625 G = some Gn ∧ Gn.p = (((625 - 1) % 624 : Nat) : Int) + 1
      ∧ (Gb.p = 624 ↔ 625 % 624 = 1) :=
  C7_position_after_calls 64 (by decide) { state := List.replicate 624 0, p := 0 }
    (List.length_replicate 624 0) 5489 625 (by decide)

/-- C8: for every seed, let `G` be the generator after `MTrand_init` and 624 calls of
`MTrand_int32`. Overwriting the position of `G` with 624 and calling `MTrand_int32`
returns the same value and leaves the same generator as calling `MTrand_int32` on `G`
itself, which is the 625th draw of the unbroken sequence. -/
theorem C8_forced_twist_boundary (w : Nat) (hw : 32 ≤ w) (g : MTrand_Info)
    (hg : g.state.length = 624) (seed : Nat) :
    ∃ G0 G r, MTrand_init w g seed = some G0 ∧ afterCalls w 624 G0 = some G
      ∧ MTrand_int32 w G = some r
      ∧ MTrand_int32 w { state := G.state, p := 624 } = some r
      ∧ nthCall w 625 G0 = some r.1 := by
  obtain ⟨b, P, hc, h1, h2, h3, h4⟩ :=
    afterCalls_block w hw (mtSeq (initWord seed)) (mtSeq_isMTSeq _) 624
  have hP : P = 624 := by omega
  subst hP
  have hr := MTrand_int32_block_eq w hw (mtSeq (initWord seed)) (mtSeq_isMTSeq _) b
  rw [← block_initWord] at hc
  rw [← cast624] at hc hr
  refine ⟨_, _, _, MTrand_init_eq w hw g seed hg, hc, hr, hr, ?_⟩
  rw [nthCall, show 625 - 1 = 624 from rfl, hc, Option.some_bind, hr, Option.map_some']

/-- Witness of C8: seed 5489 on a 64-bit host. -/
theorem C8_forced_twist_boundary_witness :
    ∃ G0 G r, MTrand_init 64 { state := List.replicate 624 0, p := 0 } 5489 = some G0
      ∧ afterCalls 64 624 G0 = some G
      ∧ MTrand_int32 64 G = some r
      ∧ MTrand_int32 64 { state := G.state, p := 624 } = some r
      ∧ nthCall 64 625 G0 = some r.1 :=
  C8_forced_twist_boundary 64 (by decide) { state := List.replicate 624 0, p := 0 }
    (List.length_replicate 624 0) 5489

theorem MTrand_twiddle_lt (u v : Nat) : MTrand_twiddle u v < 2 ^ 32 := by
  unfold MTrand_twiddle
  apply Nat.xor_lt_two_pow
  · rw [Nat.shiftRight_eq_div_pow]
    have h1 : u &&& 0x80000000 < 2 ^ 32 := Nat.and_lt_two_pow u (by decide)
    have h2 : v &&& 0x7FFFFFFF < 2 ^ 32 := Nat.and_lt_two_pow v (by decide)
    exact lt_of_le_of_lt (Nat.div_le_self _ _) (Nat.or_lt_two_pow h1 h2)
  · split <;> decide

theorem temper_lt (x : Nat) (hx : x < 2 ^ 32) : temper x < 2 ^ 32 := by
  have shr : ∀ (a k : Nat), a < 2 ^ 32 → a >>> k < 2 ^ 32 := fun a k ha => by
    rw [Nat.shiftRight_eq_div_pow]
    exact lt_of_le_of_lt (Nat.div_le_self _ _) ha
  unfold temper
  have h1 : x ^^^ (x >>> 11) < 2 ^ 32 := Nat.xor_lt_two_pow hx (shr x 11 hx)
  have h2 : (x ^^^ (x >>> 11)) ^^^ (((x ^^^ (x >>> 11)) <<< 7) &&& 0x9D2C5680) < 2 ^ 32 :=
    Nat.xor_lt_two_pow h1 (Nat.and_lt_two_pow _ (by decide))
  simp only
  have h3 := Nat.xor_lt_two_pow h2
    (Nat.and_lt_two_pow
      (((x ^^^ (x >>> 11)) ^^^ (((x ^^^ (x >>> 11)) <<< 7) &&& 0x9D2C5680)) <<< 15)
      (show 0xEFC60000 < 2 ^ 32 by decide))
  exact Nat.xor_lt_two_pow h3 (shr _ 18 h3)

theorem initWord_lt (seed i : Nat) : initWord seed i < 2 ^ 32 := by
  cases i with
  | zero => exact Nat.mod_lt _ (by decide)
  | succ j => exact Nat.mod_lt _ (by decide)

theorem mtSeq_lt (x0 : Nat → Nat) (h0 : ∀ j, j < 624 → x0 j < 2 ^ 32) (n : Nat) :
    mtSeq x0 n < 2 ^ 32 := by
  induction n using Nat.strong_induction_on with
  | _ n ih =>
    by_cases hn : n < 624
    · rw [mtSeq_of_lt x0 n hn]; exact h0 n hn
    · have h := mtSeq_isMTSeq x0 (n - 624)
      rw [show n - 624 + 624 = n by omega] at h
      rw [h]
      exact Nat.xor_lt_two_pow (ih _ (by omega)) (MTrand_twiddle_lt _ _)

theorem mem_block (x : Nat → Nat) (b v : Nat) (hv : v ∈ block x b) :
    ∃ j, j < 624 ∧ v = x (b + j) := by
  unfold block at hv
  rw [List.mem_map] at hv
  obtain ⟨j, hj, rfl⟩ := hv
  exact ⟨j, List.mem_range.mp hj, rfl⟩

theorem twisted_words_lt (st : List Nat) (hwords : ∀ v, v ∈ st → v < 2 ^ 32) (v : Nat)
    (hv : v ∈ block (mtSeq fun j => st.getD j 0) 624) : v < 2 ^ 32 := by
  obtain ⟨j, _, rfl⟩ := mem_block _ _ _ hv
  apply mtSeq_lt
  intro i _
  rw [List.getD_eq_getElem?_getD]
  by_cases hi : i < st.length
  · rw [List.getElem?_eq_getElem hi]
    exact hwords _ (List.getElem_mem hi)
  · rw [List.getElem?_eq_none (by omega)]
    decide

/-- C9: every word stored by `MTrand_init` is below `2^32`; and for every state
whose 624 words are below `2^32`, with `0 ≤ position ≤ 624`, after
`MTrand_gen_state` and after `MTrand_int32` all 624 words are still below `2^32`
and the value returned by `MTrand_int32` is below `2^32`. The width `w` of
`unsigned long` is any width of at least 32 bits, 64 among them. -/
theorem C9_words_below_two_pow_32 (w : Nat) (hw : 32 ≤ w) (g : MTrand_Info)
    (hg : g.state.length = 624) (seed : Nat) (s : MTrand_Info)
    (hlen : s.state.length = 624) (hwords : ∀ v, v ∈ s.state → v < 2 ^ 32)
    (hp0 : 0 ≤ s.p) (hp1 : s.p ≤ 624) :
    (∃ G, MTrand_init w g seed = some G ∧ G.state.length = 624
        ∧ ∀ v, v ∈ G.state → v < 2 ^ 32)
      ∧ (∃ s1, MTrand_gen_state s = some s1 ∧ s1.state.length = 624
        ∧ ∀ v, v ∈ s1.state → v < 2 ^ 32)
      ∧ ∃ r s2, MTrand_int32 w s = some (r, s2) ∧ r < 2 ^ 32 ∧ s2.state.length = 624
        ∧ ∀ v, v ∈ s2.state → v < 2 ^ 32 := by
  refine ⟨⟨_, MTrand_init_eq w hw g seed hg, block_length _ _, ?_⟩,
    ⟨_, MTrand_gen_state_some s hlen, block_length _ _, twisted_words_lt s.state hwords⟩, ?_⟩
  · intro v hv
    obtain ⟨j, _, rfl⟩ := mem_block _ _ _ hv
    exact initWord_lt seed _
  · obtain ⟨s', x, _, hl', _, _, _, hmem, hi, he, hne⟩ :=
      MTrand_int32_general w hw s hlen hp0 hp1
    have hw' : ∀ v, v ∈ s'.state → v < 2 ^ 32 := by
      by_cases h : s.p = 624
      · rw [he h]; exact twisted_words_lt s.state hwords
      · rw [hne h]; exact hwords
    exact ⟨_, _, hi, temper_lt x (hw' x hmem), hl', hw'⟩

/-- Witness of C9: a 64-bit host, seed `2^40 + 1`, and the state whose 624 words
are all `2^32 - 1`, at position 624. -/
theorem C9_words_below_two_pow_32_witness :
    (∃ G, MTrand_init 64 { state := List.replicate 624 0, p := 0 } (2 ^ 40 + 1) = some G
        ∧ G.state.length = 624 ∧ ∀ v, v ∈ G.state → v < 2 ^ 32)
      ∧ (∃ s1, MTrand_gen_state { state := List.replicate 624 4294967295, p := 624 } = some s1
        ∧ s1.state.length = 624 ∧ ∀ v, v ∈ s1.state → v < 2 ^ 32)
      ∧ ∃ r s2, MTrand_int32 64 { state := List.replicate 624 4294967295, p := 624 }
          = some (r, s2) ∧ r < 2 ^ 32 ∧ s2.state.length = 624
        ∧ ∀ v, v ∈ s2.state → v < 2 ^ 32 :=
  C9_words_below_two_pow_32 64 (by decide) { state := List.replicate 624 0, p := 0 }
    (List.length_replicate 624 0) (2 ^ 40 + 1)
    { state := List.replicate 624 4294967295, p := 624 }
    (List.length_replicate 624 4294967295)
    (fun v hv => by rw [List.eq_of_mem_replicate hv]; decide) (by decide) (by decide)

/-- C10: the position stays in `[0, 624]`: `MTrand_init` leaves a position in
`[0, 624]` for every seed, and for every state of 624 words with
`0 ≤ position ≤ 624` the position after `MTrand_gen_state`, after `MTrand_int32`
and after `MTrand_get` is again in `[0, 624]`. -/
theorem C10_position_in_range (w : Nat) (hw : 32 ≤ w) (g : MTrand_Info)
    (hg : g.state.length = 624) (seed : Nat) (s : MTrand_Info)
    (hlen : s.state.length = 624) (hp0 : 0 ≤ s.p) (hp1 : s.p ≤ 624) :
    (∃ G, MTrand_init w g seed = some G ∧ 0 ≤ G.p ∧ G.p ≤ 624)
      ∧ (∃ s1, MTrand_gen_state s = some s1 ∧ 0 ≤ s1.p ∧ s1.p ≤ 624)
      ∧ (∃ r s2, MTrand_int32 w s = some (r, s2) ∧ 0 ≤ s2.p ∧ s2.p ≤ 624)
      ∧ ∃ d s3, MTrand_get w s = some (d, s3) ∧ 0 ≤ s3.p ∧ s3.p ≤ 624 := by
  have hint : ∃ r s2, MTrand_int32 w s = some (r, s2) ∧ 0 ≤ s2.p ∧ s2.p ≤ 624 := by
    obtain ⟨s', x, _, _, h0, h1, _, _, hi, _, _⟩ := MTrand_int32_general w hw s hlen hp0 hp1
    refine ⟨_, _, hi, ?_⟩
    show 0 ≤ s'.p + 1 ∧ s'.p + 1 ≤ 624
    omega
  refine ⟨⟨_, MTrand_init_eq w hw g seed hg, show (0 : Int) ≤ 624 by decide, le_refl _⟩,
    ⟨_, MTrand_gen_state_some s hlen, le_refl _, show (0 : Int) ≤ 624 by decide⟩, hint, ?_⟩
  obtain ⟨r, s2, hi, h0, h1⟩ := hint
  refine ⟨(1 / 4294967296 : ℚ) * (r : ℚ), s2, ?_, h0, h1⟩
  unfold MTrand_get
  rw [hi]
  rfl

/-- Witness of C10: a 64-bit host, seed 5489, and the all-zero state at position 623. -/
theorem C10_position_in_range_witness :
    (∃ G, MTrand_init 64 { state := List.replicate 624 0, p := 0 } 5489 = some G
        ∧ 0 ≤ G.p ∧ G.p ≤ 624)
      ∧ (∃ s1, MTrand_gen_state { state := List.replicate 624 0, p := 623 } = some s1
        ∧ 0 ≤ s1.p ∧ s1.p ≤ 624)
      ∧ (∃ r s2, MTrand_int32 64 { state := List.replicate 624 0, p := 623 } = some (r, s2)
        ∧ 0 ≤ s2.p ∧ s2.p ≤ 624)
      ∧ ∃ d s3, MTrand_get 64 { state := List.replicate 624 0, p := 623 } = some (d, s3)
        ∧ 0 ≤ s3.p ∧ s3.p ≤ 624 :=
  C10_position_in_range 64 (by decide) { state := List.replicate 624 0, p := 0 }
    (List.length_replicate 624 0) 5489 { state := List.replicate 624 0, p := 623 }
    (List.length_replicate 624 0) (by decide) (by decide)

theorem MTrand_get_eq (w : Nat) (s g : MTrand_Info) (r : Nat)
    (h : MTrand_int32 w s = some (r, g)) :
    MTrand_get w s = some ((1 / 4294967296 : ℚ) * (r : ℚ), g) := by
  unfold MTrand_get
  rw [h]
  rfl

theorem seeded_seq_lt (seed n : Nat) : mtSeq (initWord seed) n < 2 ^ 32 :=
  mtSeq_lt _ (fun j _ => initWord_lt seed j) n

/-- The call that follows `n` calls on a seeded generator: it returns the next
term of the word sequence, tempered, and leaves the generator of `n + 1` calls. -/
theorem int32_after_calls (w : Nat) (hw : 32 ≤ w) (g : MTrand_Info)
    (hg : g.state.length = 624) (seed n : Nat) :
    ∃ G Gn G', MTrand_init w g seed = some G ∧ afterCalls w n G = some Gn
      ∧ MTrand_int32 w Gn = some (temper (mtSeq (initWord seed) (624 + n)), G')
      ∧ afterCalls w (n + 1) G = some G' := by
  obtain ⟨b, P, hc, h1, h2, h3, _⟩ :=
    afterCalls_block w hw (mtSeq (initWord seed)) (mtSeq_isMTSeq _) n
  rw [← block_initWord, ← cast624] at hc
  by_cases hP : P = 624
  · subst hP
    have hr := MTrand_int32_block_eq w hw (mtSeq (initWord seed)) (mtSeq_isMTSeq _) b
    rw [show b + 624 = 624 + n by omega] at hr
    exact ⟨_, _, _, MTrand_init_eq w hw g seed hg, hc, hr, by
      rw [afterCalls, hc, Option.some_bind, hr, Option.map_some']⟩
  · have hr := MTrand_int32_block_lt w hw (mtSeq (initWord seed)) b P (by omega)
    rw [show b + P = 624 + n by omega] at hr
    exact ⟨_, _, _, MTrand_init_eq w hw g seed hg, hc, hr, by
      rw [afterCalls, hc, Option.some_bind, hr, Option.map_some']⟩

theorem temper_max : temper 316513203 = 4294967295 := by decide

/-- C11: for every seed and every number `n` of draws, the value returned by
`MTrand_get`, taken as the exact rational `MTrand_int32(state) / 2^32`, satisfies
`0 ≤ value < 1` and `value ≤ (2^32 - 1) / 2^32`, and `MTrand_get` leaves the
generator that one `MTrand_int32` call leaves. The bound `(2^32 - 1) / 2^32` is
the value returned on a state whose word at the position is 316513203. -/
theorem C11_get_in_unit_interval (w : Nat) (hw : 32 ≤ w) (g : MTrand_Info)
    (hg : g.state.length = 624) (seed n : Nat) :
    (∃ G Gn r G', MTrand_init w g seed = some G ∧ afterCalls w n G = some Gn
      ∧ MTrand_int32 w Gn = some (r, G')
      ∧ MTrand_get w Gn = some ((1 / 4294967296 : ℚ) * (r : ℚ), G')
      ∧ (0 : ℚ) ≤ (1 / 4294967296 : ℚ) * (r : ℚ)
      ∧ (1 / 4294967296 : ℚ) * (r : ℚ) < 1
      ∧ (1 / 4294967296 : ℚ) * (r : ℚ) ≤ 4294967295 / 4294967296)
    ∧ ∃ s', MTrand_get w { state := List.replicate 624 316513203, p := 0 }
        = some ((4294967295 / 4294967296 : ℚ), s') := by
  constructor
  · obtain ⟨G, Gn, G', hi, hc, hr, _⟩ := int32_after_calls w hw g hg seed n
    have hlt : temper (mtSeq (initWord seed) (624 + n)) < 2 ^ 32 :=
      temper_lt _ (seeded_seq_lt seed _)
    have hq : ((temper (mtSeq (initWord seed) (624 + n)) : Nat) : ℚ) ≤ 4294967295 := by
      have : temper (mtSeq (initWord seed) (624 + n)) ≤ 4294967295 := by omega
      exact_mod_cast this
    have h0 : (0 : ℚ) ≤ ((temper (mtSeq (initWord seed) (624 + n)) : Nat) : ℚ) :=
      Nat.cast_nonneg _
    refine ⟨G, Gn, _, G', hi, hc, hr, MTrand_get_eq w Gn G' _ hr, ?_, ?_, ?_⟩
    · positivity
    · linarith
    · linarith
  · have hb : List.replicate 624 316513203 = block (fun _ => 316513203) 0 :=
      eq_block _ 0 _ (List.length_replicate 624 316513203) (fun j hj => by
        rw [List.getElem?_replicate, if_pos hj])
    have hr := MTrand_int32_block_lt w hw (fun _ => 316513203) 0 0 (by omega)
    rw [← hb] at hr
    have hg' := MTrand_get_eq w _ _ _ hr
    rw [temper_max] at hg'
    have hq : (1 / 4294967296 : ℚ) * ((4294967295 : Nat) : ℚ) = 4294967295 / 4294967296 := by
      norm_num
    rw [hq] at hg'
    exact ⟨_, hg'⟩

/-- Witness of C11: seed 5489 on a 64-bit host, after 624 draws. -/
theorem C11_get_in_unit_interval_witness :
    (∃ G Gn r G', MTrand_init 64 { state := List.replicate 624 0, p := 0 } 5489 = some G
      ∧ afterCalls 64 624 G = some Gn
      ∧ MTrand_int32 64 Gn = some (r, G')
      ∧ MTrand_get 64 Gn = some ((1 / 4294967296 : ℚ) * (r : ℚ), G')
      ∧ (0 : ℚ) ≤ (1 / 4294967296 : ℚ) * (r : ℚ)
      ∧ (1 / 4294967296 : ℚ) * (r : ℚ) < 1
      ∧ (1 / 4294967296 : ℚ) * (r : ℚ) ≤ 4294967295 / 4294967296)
    ∧ ∃ s', MTrand_get 64 { state := List.replicate 624 316513203, p := 0 }
        = some ((4294967295 / 4294967296 : ℚ), s') :=
  C11_get_in_unit_interval 64 (by decide) { state := List.replicate 624 0, p := 0 }
    (List.length_replicate 624 0) 5489 624

theorem readAt_eq_none_iff (st : List Nat) (i : Int) :
    readAt st i = none ↔ (i < 0 ∨ (st.length : Int) ≤ i) := by
  unfold readAt
  by_cases h : 0 ≤ i
  · rw [if_pos h, List.getElem?_eq_none_iff]
    omega
  · rw [if_neg h]
    exact ⟨fun _ => Or.inl (by omega), fun _ => rfl⟩

theorem writeAt_eq_none_iff (st : List Nat) (i : Int) (v : Nat) :
    writeAt st i v = none ↔ (i < 0 ∨ (st.length : Int) ≤ i) := by
  unfold writeAt
  by_cases h : 0 ≤ i ∧ i.toNat < st.length
  · rw [if_pos h]
    constructor
    · intro h'; exact absurd h' (by simp)
    · intro h'; omega
  · rw [if_neg h]
    exact ⟨fun _ => by omega, fun _ => rfl⟩

/-- C12: every core operation is total on its domain. For every seed and every
state of 624 words with `0 ≤ position ≤ 624`, `MTrand_init`, `MTrand_gen_state`
and `MTrand_int32` return a result; a read or write fails only outside the array,
so no index they use is out of range. In `MTrand_gen_state`, `i + 397 ≤ 623` for
`i < 227` and `i + 397 - 624 ≥ 0` for `i ≥ 227`; in `MTrand_int32` the position
read is below 624 after the conditional twist. -/
theorem C12_operations_total (w : Nat) (hw : 32 ≤ w) (g : MTrand_Info)
    (hg : g.state.length = 624) (seed : Nat) (s : MTrand_Info)
    (hlen : s.state.length = 624) (hp0 : 0 ≤ s.p) (hp1 : s.p ≤ 624) :
    (∃ G, MTrand_init w g seed = some G)
      ∧ (∃ s1, MTrand_gen_state s = some s1)
      ∧ (∃ r, MTrand_int32 w s = some r)
      ∧ (∀ (st : List Nat) (i : Int),
          readAt st i = none ↔ (i < 0 ∨ (st.length : Int) ≤ i))
      ∧ (∀ (st : List Nat) (i : Int) (v : Nat),
          writeAt st i v = none ↔ (i < 0 ∨ (st.length : Int) ≤ i))
      ∧ (∀ i : Int, 0 ≤ i → i < MaxStates - m → 0 ≤ i + m ∧ i + m ≤ 623)
      ∧ (∀ i : Int, MaxStates - m ≤ i → i < MaxStates - 1 →
          0 ≤ i + m - MaxStates ∧ i + m - MaxStates ≤ 623)
      ∧ ∃ s', (if s.p = MaxStates then MTrand_gen_state s else some s) = some s'
          ∧ 0 ≤ s'.p ∧ s'.p < 624 := by
  obtain ⟨s', x, hs', _, h0, h1, _, _, hi, _, _⟩ := MTrand_int32_general w hw s hlen hp0 hp1
  refine ⟨⟨_, MTrand_init_eq w hw g seed hg⟩, ⟨_, MTrand_gen_state_some s hlen⟩, ⟨_, hi⟩,
    readAt_eq_none_iff, writeAt_eq_none_iff, ?_, ?_, ⟨s', ?_, h0, h1⟩⟩
  · intro i hi0 hi1
    simp only [MaxStates, m] at hi1 ⊢
    omega
  · intro i hi0 hi1
    simp only [MaxStates, m] at hi0 hi1 ⊢
    omega
  · simpa only [MaxStates] using hs'

/-- Witness of C12: a 64-bit host, seed 0, and the all-zero state at position 624. -/
theorem C12_operations_total_witness :
    (∃ G, MTrand_init 64 { state := List.replicate 624 0, p := 0 } 0 = some G)
      ∧ (∃ s1, MTrand_gen_state { state := List.replicate 624 0, p := 624 } = some s1)
      ∧ (∃ r, MTrand_int32 64 { state := List.replicate 624 0, p := 624 } = some r)
      ∧ (∀ (st : List Nat) (i : Int),
          readAt st i = none ↔ (i < 0 ∨ (st.length : Int) ≤ i))
      ∧ (∀ (st : List Nat) (i : Int) (v : Nat),
          writeAt st i v = none ↔ (i < 0 ∨ (st.length : Int) ≤ i))
      ∧ (∀ i : Int, 0 ≤ i → i < MaxStates - m → 0 ≤ i + m ∧ i + m ≤ 623)
      ∧ (∀ i : Int, MaxStates - m ≤ i → i < MaxStates - 1 →
          0 ≤ i + m - MaxStates ∧ i + m - MaxStates ≤ 623)
      ∧ ∃ s', (if (624 : Int) = MaxStates
            then MTrand_gen_state { state := List.replicate 624 0, p := 624 }
            else some { state := List.replicate 624 0, p := 624 }) = some s'
          ∧ 0 ≤ s'.p ∧ s'.p < 624 :=
  C12_operations_total 64 (by decide) { state := List.replicate 624 0, p := 0 }
    (List.length_replicate 624 0) 0 { state := List.replicate 624 0, p := 624 }
    (List.length_replicate 624 0) (by decide) (by decide)

/-- C13: the output does not depend on the width of `unsigned long`. For every
seed below `2^32` and every `n`, the generator run with 64-bit arithmetic and the
generator run with 32-bit wraparound arithmetic have the same seeded state, the
same generator after `n` calls, and the same first `n` values of `MTrand_int32`. -/
theorem C13_width_independent (g : MTrand_Info) (hg : g.state.length = 624)
    (seed : Nat) (_hseed : seed < 2 ^ 32) (n : Nat) :
    ∃ G Gn, MTrand_init 64 g seed = some G ∧ MTrand_init 32 g seed = some G
      ∧ afterCalls 64 n G = some Gn ∧ afterCalls 32 n G = some Gn
      ∧ ∀ k, 1 ≤ k → k ≤ n → ∃ v, nthCall 64 k G = some v ∧ nthCall 32 k G = some v := by
  obtain ⟨b, P, hc, h1, h2, h3, h4⟩ :=
    afterCalls_block 64 (by decide) (mtSeq (initWord seed)) (mtSeq_isMTSeq _) n
  obtain ⟨b', P', hc', h1', h2', h3', h4'⟩ :=
    afterCalls_block 32 (by decide) (mtSeq (initWord seed)) (mtSeq_isMTSeq _) n
  obtain ⟨t, rfl⟩ := h4
  obtain ⟨t', rfl⟩ := h4'
  have ht : t' = t := by omega
  subst ht
  have hP : P' = P := by omega
  subst hP
  rw [← block_initWord, ← cast624] at hc hc'
  refine ⟨_, _, MTrand_init_eq 64 (by decide) g seed hg,
    MTrand_init_eq 32 (by decide) g seed hg, hc, hc', ?_⟩
  intro k hk _
  refine ⟨temper (mtSeq (initWord seed) (623 + k)), ?_, ?_⟩
  · rw [block_initWord, cast624]
    exact nthCall_block 64 (by decide) _ (mtSeq_isMTSeq _) k hk
  · rw [block_initWord, cast624]
    exact nthCall_block 32 (by decide) _ (mtSeq_isMTSeq _) k hk

/-- Witness of C13: seed 5489 and the first 1000 values. -/
theorem C13_width_independent_witness :
    ∃ G Gn, MTrand_init 64 { state := List.replicate 624 0, p := 0 } 5489 = some G
      ∧ MTrand_init 32 { state := List.replicate 624 0, p := 0 } 5489 = some G
      ∧ afterCalls 64 1000 G = some Gn ∧ afterCalls 32 1000 G = some Gn
      ∧ ∀ k, 1 ≤ k → k ≤ 1000 →
          ∃ v, nthCall 64 k G = some v ∧ nthCall 32 k G = some v :=
  C13_width_independent { state := List.replicate 624 0, p := 0 }
    (List.length_replicate 624 0) 5489 (by decide) 1000

theorem shiftRight_xor (a b k : Nat) : (a ^^^ b) >>> k = (a >>> k) ^^^ (b >>> k) := by
  apply Nat.eq_of_testBit_eq
  intro i
  simp only [Nat.testBit_shiftRight, Nat.testBit_xor]

theorem shiftLeft_xor (a b k : Nat) : (a ^^^ b) <<< k = (a <<< k) ^^^ (b <<< k) := by
  apply Nat.eq_of_testBit_eq
  intro i
  simp only [Nat.testBit_shiftLeft, Nat.testBit_xor]
  cases decide (i ≥ k) <;> simp

theorem xor_eq_zero_of_eq (a b fa fb : Nat) (h : a ^^^ fa = b ^^^ fb) :
    (a ^^^ b) ^^^ (fa ^^^ fb) = 0 := by
  have e : (a ^^^ b) ^^^ (fa ^^^ fb) = (a ^^^ fa) ^^^ (b ^^^ fb) := by ac_rfl
  rw [e, h, Nat.xor_self]

theorem xorshr_inj (k : Nat) (hk : 1 ≤ k) (x y : Nat)
    (h : x ^^^ (x >>> k) = y ^^^ (y >>> k)) : x = y := by
  have hz := xor_eq_zero_of_eq x y _ _ h
  rw [← shiftRight_xor, Nat.xor_eq_zero] at hz
  have h0 : x ^^^ y = 0 := by
    by_contra hne
    have hpos : 0 < x ^^^ y := Nat.pos_of_ne_zero hne
    have hlt : (x ^^^ y) >>> k < x ^^^ y := by
      rw [Nat.shiftRight_eq_div_pow]
      exact Nat.div_lt_self hpos (Nat.one_lt_two_pow (by omega))
    omega
  exact Nat.xor_eq_zero.mp h0

theorem xorshl_inj (k : Nat) (hk : 1 ≤ k) (M x y : Nat)
    (h : x ^^^ ((x <<< k) &&& M) = y ^^^ ((y <<< k) &&& M)) : x = y := by
  have hz := xor_eq_zero_of_eq x y _ _ h
  rw [← Nat.and_xor_distrib_right, ← shiftLeft_xor, Nat.xor_eq_zero] at hz
  have hbit : ∀ i, (x ^^^ y).testBit i = false := by
    intro i
    induction i using Nat.strong_induction_on with
    | _ i ih =>
      have hb := congrArg (fun t => Nat.testBit t i) hz
      simp only [Nat.testBit_and, Nat.testBit_shiftLeft] at hb
      rw [hb]
      by_cases hik : k ≤ i
      · rw [ih (i - k) (by omega)]
        simp
      · simp [hik]
  have h0 : x ^^^ y = 0 := Nat.eq_of_testBit_eq (fun i => by rw [hbit i, Nat.zero_testBit])
  exact Nat.xor_eq_zero.mp h0

theorem temper_injective (x y : Nat) (h : temper x = temper y) : x = y := by
  simp only [temper] at h
  have h3 := xorshr_inj 18 (by decide) _ _ h
  have h2 := xorshl_inj 15 (by decide) _ _ _ h3
  have h1 := xorshl_inj 7 (by decide) _ _ _ h2
  exact xorshr_inj 11 (by decide) _ _ h1

theorem temper_surjective (v : Nat) (hv : v < 2 ^ 32) : ∃ x, x < 2 ^ 32 ∧ temper x = v := by
  let f : Fin (2 ^ 32) → Fin (2 ^ 32) := fun a => ⟨temper a.1, temper_lt a.1 a.2⟩
  have hinj : Function.Injective f := by
    intro a b hab
    apply Fin.ext
    exact temper_injective _ _ (congrArg Fin.val hab)
  obtain ⟨a, ha⟩ := (Finite.injective_iff_surjective.mp hinj) ⟨v, hv⟩
  exact ⟨a.1, a.2, congrArg Fin.val ha⟩

theorem MTrand_int32_word (w : Nat) (hw : 32 ≤ w) (st : List Nat) (P x : Nat)
    (hP : P < 624) (hx : st[P]? = some x) :
    MTrand_int32 w { state := st, p := (P : Int) }
      = some (temper x, { state := st, p := (P : Int) + 1 }) := by
  have hne : ¬ ((P : Int) = MaxStates) := by simp only [MaxStates]; omega
  exact MTrand_int32_eq w hw { state := st, p := (P : Int) } { state := st, p := (P : Int) } x
    (by simp only [if_neg hne]) (by simp only [readAt_natCast]; exact hx)

theorem testBit_and_high (u j : Nat) :
    (u &&& 0x80000000).testBit j = (u.testBit j && decide (31 = j)) := by
  rw [Nat.testBit_and, show (0x80000000 : Nat) = 2 ^ 31 from rfl, Nat.testBit_two_pow]

theorem testBit_and_low (v j : Nat) :
    (v &&& 0x7FFFFFFF).testBit j = (v.testBit j && decide (j < 31)) := by
  rw [Nat.testBit_and, show (0x7FFFFFFF : Nat) = 2 ^ 31 - 1 from rfl,
    Nat.testBit_two_pow_sub_one]

theorem twiddle_mix_testBit (u v j : Nat) :
    ((u &&& 0x80000000) ||| (v &&& 0x7FFFFFFF)).testBit j
      = (u.testBit j && decide (31 = j) || v.testBit j && decide (j < 31)) := by
  rw [Nat.testBit_or, testBit_and_high, testBit_and_low]

theorem and_one_ne_zero_iff (v : Nat) : v &&& 1 ≠ 0 ↔ v.testBit 0 = true := by
  rw [Nat.and_one_is_mod, Nat.testBit_zero]
  simp only [decide_eq_true_eq]
  omega

/-- `MTrand_twiddle` determines bit 31 of its first argument and the low 31 bits
of its second argument. -/
theorem MTrand_twiddle_inj (u v u' v' : Nat)
    (h : MTrand_twiddle u v = MTrand_twiddle u' v') :
    u.testBit 31 = u'.testBit 31 ∧ ∀ j, j < 31 → v.testBit j = v'.testBit j := by
  have hA : Nat.testBit 0x9908B0DF 31 = true := by decide
  have hsh : ∀ a b : Nat, ((a &&& 0x80000000) ||| (b &&& 0x7FFFFFFF)) >>> 1 < 2 ^ 31 := by
    intro a b
    have h1 : a &&& 0x80000000 < 2 ^ 32 := Nat.and_lt_two_pow a (by decide)
    have h2 : b &&& 0x7FFFFFFF < 2 ^ 32 := Nat.and_lt_two_pow b (by decide)
    have h3 := Nat.or_lt_two_pow h1 h2
    rw [Nat.shiftRight_eq_div_pow]
    omega
  have hpar : (v &&& 1 ≠ 0) ↔ (v' &&& 1 ≠ 0) := by
    have hb := congrArg (fun t => Nat.testBit t 31) h
    simp only [MTrand_twiddle, Nat.testBit_xor, Nat.testBit_lt_two_pow (hsh _ _),
      Bool.false_xor] at hb
    by_cases h1 : v &&& 1 ≠ 0 <;> by_cases h2 : v' &&& 1 ≠ 0
    · exact ⟨fun _ => h2, fun _ => h1⟩
    · rw [if_pos h1, if_neg h2, hA, Nat.zero_testBit] at hb
      exact absurd hb (by decide)
    · rw [if_neg h1, if_pos h2, hA, Nat.zero_testBit] at hb
      exact absurd hb (by decide)
    · exact ⟨fun h' => absurd h' h1, fun h' => absurd h' h2⟩
  have hc : (if v &&& 1 ≠ 0 then (0x9908B0DF : Nat) else 0x0)
      = (if v' &&& 1 ≠ 0 then (0x9908B0DF : Nat) else 0x0) := by
    by_cases h1 : v &&& 1 ≠ 0
    · rw [if_pos h1, if_pos (hpar.mp h1)]
    · rw [if_neg h1, if_neg (fun h' => h1 (hpar.mpr h'))]
  have hS : ((u &&& 0x80000000) ||| (v &&& 0x7FFFFFFF)) >>> 1
      = ((u' &&& 0x80000000) ||| (v' &&& 0x7FFFFFFF)) >>> 1 := by
    unfold MTrand_twiddle at h
    rw [hc] at h
    exact Nat.xor_left_inj.mp h
  have hbits : ∀ i, (u.testBit (1 + i) && decide (31 = 1 + i)
        || v.testBit (1 + i) && decide (1 + i < 31))
      = (u'.testBit (1 + i) && decide (31 = 1 + i)
        || v'.testBit (1 + i) && decide (1 + i < 31)) := by
    intro i
    have hb := congrArg (fun t => Nat.testBit t i) hS
    simp only [Nat.testBit_shiftRight, twiddle_mix_testBit] at hb
    exact hb
  constructor
  · have hb := hbits 30
    simpa using hb
  · intro j hj
    by_cases hj0 : j = 0
    · subst hj0
      have e1 := and_one_ne_zero_iff v
      have e2 := and_one_ne_zero_iff v'
      by_cases hv : v.testBit 0 = true
      · rw [hv, e2.mp (hpar.mp (e1.mpr hv))]
      · have hv' : ¬ v'.testBit 0 = true := fun h' => hv (e1.mp (hpar.mpr (e2.mpr h')))
        rw [Bool.not_eq_true] at hv hv'
        rw [hv, hv']
    · have hb := hbits (j - 1)
      rw [show 1 + (j - 1) = j by omega] at hb
      have d1 : decide (31 = j) = false := by simp; omega
      have d2 : decide (j < 31) = true := by simp; omega
      rw [d1, d2] at hb
      simpa using hb

theorem MTrand_twiddle_zero : MTrand_twiddle 0 0 = 0 := by decide

theorem eq_of_testBit_split (x y : Nat) (hx : x < 2 ^ 32) (hy : y < 2 ^ 32)
    (h31 : x.testBit 31 = y.testBit 31) (hlow : ∀ j, j < 31 → x.testBit j = y.testBit j) :
    x = y := by
  apply Nat.eq_of_testBit_eq
  intro i
  by_cases h1 : i < 31
  · exact hlow i h1
  · by_cases h2 : i = 31
    · subst h2; exact h31
    · have hp : 2 ^ 32 ≤ 2 ^ i := Nat.pow_le_pow_right (by decide) (by omega)
      rw [Nat.testBit_lt_two_pow (lt_of_lt_of_le hx hp),
        Nat.testBit_lt_two_pow (lt_of_lt_of_le hy hp)]

theorem nth_value (w : Nat) (hw : 32 ≤ w) (g : MTrand_Info) (hg : g.state.length = 624)
    (seed n : Nat) (hn : 1 ≤ n) :
    (MTrand_init w g seed).bind (nthCall w n)
      = some (temper (mtSeq (initWord seed) (623 + n))) := by
  rw [MTrand_init_eq w hw g seed hg, Option.some_bind, block_initWord, cast624]
  exact nthCall_block w hw _ (mtSeq_isMTSeq _) n hn

theorem seq_twiddle (x : Nat → Nat) (hx : IsMTSeq x) (k : Nat) :
    MTrand_twiddle (x k) (x (k + 1)) = x (k + 397) ^^^ x (k + 624) := by
  rw [hx k, Nat.xor_cancel_left]

theorem initWord_succ (seed i : Nat) :
    initWord seed (i + 1)
      = (1812433253 * (initWord seed i ^^^ (initWord seed i >>> 30)) + (i + 1)) % 2 ^ 32 :=
  rfl

/-- A word of the sequence is zero when the two twiddle values that involve it are zero. -/
theorem word_zero_of_twiddle (a b c : Nat) (hb : b < 2 ^ 32)
    (h1 : MTrand_twiddle a b = 0) (h2 : MTrand_twiddle b c = 0) : b = 0 := by
  have e1 := MTrand_twiddle_inj a b 0 0 (h1.trans MTrand_twiddle_zero.symm)
  have e2 := MTrand_twiddle_inj b c 0 0 (h2.trans MTrand_twiddle_zero.symm)
  exact eq_of_testBit_split b 0 hb (by decide) e2.1 e1.2

/-- The seeded words 228 and 229 cannot make both twiddle values around word 228 zero. -/
theorem seeded_twiddle_ne_zero (seed : Nat)
    (h1 : MTrand_twiddle (initWord seed 227) (initWord seed 228) = 0)
    (h2 : MTrand_twiddle (initWord seed 228) (initWord seed 229) = 0) : False := by
  have h228 := word_zero_of_twiddle _ _ _ (initWord_lt seed 228) h1 h2
  have h229 : initWord seed 229 = 229 := by
    rw [show (229 : Nat) = 228 + 1 from rfl, initWord_succ, h228]
    decide
  have e2 := MTrand_twiddle_inj _ _ 0 0 (h2.trans MTrand_twiddle_zero.symm)
  have hb := e2.2 0 (by decide)
  rw [h229] at hb
  exact absurd hb (by decide)

/-- C14: for every seed, the first 624 values returned by `MTrand_int32` after
`MTrand_init` are not all equal to one another: two of the draws 1 to 624 return
different values (draws 1 and 228, or else draws 2 and 229). -/
theorem C14_first_values_not_constant (w : Nat) (hw : 32 ≤ w) (g : MTrand_Info)
    (hg : g.state.length = 624) (seed : Nat) :
    ∃ i j a b, 1 ≤ i ∧ i ≤ 624 ∧ 1 ≤ j ∧ j ≤ 624
      ∧ (MTrand_init w g seed).bind (nthCall w i) = some a
      ∧ (MTrand_init w g seed).bind (nthCall w j) = some b ∧ a ≠ b := by
  have hx := mtSeq_isMTSeq (initWord seed)
  have v1 := nth_value w hw g hg seed 1 (by decide)
  have v2 := nth_value w hw g hg seed 2 (by decide)
  have v228 := nth_value w hw g hg seed 228 (by decide)
  have v229 := nth_value w hw g hg seed 229 (by decide)
  by_cases h1 : temper (mtSeq (initWord seed) (623 + 1))
      = temper (mtSeq (initWord seed) (623 + 228))
  · by_cases h2 : temper (mtSeq (initWord seed) (623 + 2))
        = temper (mtSeq (initWord seed) (623 + 229))
    · exfalso
      have e1 := temper_injective _ _ h1
      have e2 := temper_injective _ _ h2
      have t1 := seq_twiddle _ hx 227
      have t2 := seq_twiddle _ hx 228
      rw [show 227 + 397 = 623 + 1 from rfl, show 227 + 624 = 623 + 228 from rfl, e1,
        Nat.xor_self, mtSeq_of_lt _ 227 (by decide),
        mtSeq_of_lt _ (227 + 1) (by decide)] at t1
      rw [show 228 + 397 = 623 + 2 from rfl, show 228 + 624 = 623 + 229 from rfl, e2,
        Nat.xor_self, mtSeq_of_lt _ 228 (by decide),
        mtSeq_of_lt _ (228 + 1) (by decide)] at t2
      exact seeded_twiddle_ne_zero seed t1 t2
    · exact ⟨2, 229, _, _, by decide, by decide, by decide, by decide, v2, v229, h2⟩
  · exact ⟨1, 228, _, _, by decide, by decide, by decide, by decide, v1, v228, h1⟩

/-- Witness of C14: seed 5489 on a 64-bit host. -/
theorem C14_first_values_not_constant_witness :
    ∃ i j a b, 1 ≤ i ∧ i ≤ 624 ∧ 1 ≤ j ∧ j ≤ 624
      ∧ (MTrand_init 64 { state := List.replicate 624 0, p := 0 } 5489).bind (nthCall 64 i)
          = some a
      ∧ (MTrand_init 64 { state := List.replicate 624 0, p := 0 } 5489).bind (nthCall 64 j)
          = some b ∧ a ≠ b :=
  C14_first_values_not_constant 64 (by decide) { state := List.replicate 624 0, p := 0 }
    (List.length_replicate 624 0) 5489

theorem init_step_inj (a b k : Nat) (ha : a < 2 ^ 32) (hb : b < 2 ^ 32)
    (h : (1812433253 * (a ^^^ (a >>> 30)) + k) % 2 ^ 32
      = (1812433253 * (b ^^^ (b >>> 30)) + k) % 2 ^ 32) : a = b := by
  have shr : ∀ c : Nat, c < 2 ^ 32 → c ^^^ (c >>> 30) < 2 ^ 32 := fun c hc => by
    apply Nat.xor_lt_two_pow hc
    rw [Nat.shiftRight_eq_div_pow]
    exact lt_of_le_of_lt (Nat.div_le_self _ _) hc
  have h1 : 1812433253 * (a ^^^ (a >>> 30)) + k ≡ 1812433253 * (b ^^^ (b >>> 30)) + k
      [MOD 2 ^ 32] := h
  have h2 := Nat.ModEq.cancel_left_of_coprime (by decide) (Nat.ModEq.add_right_cancel' k h1)
  have h3 : (a ^^^ (a >>> 30)) % 2 ^ 32 = (b ^^^ (b >>> 30)) % 2 ^ 32 := h2
  rw [Nat.mod_eq_of_lt (shr a ha), Nat.mod_eq_of_lt (shr b hb)] at h3
  exact xorshr_inj 30 (by decide) a b h3

theorem initWord_inj (s1 s2 i : Nat) (h : initWord s1 i = initWord s2 i) :
    s1 % 2 ^ 32 = s2 % 2 ^ 32 := by
  induction i with
  | zero => exact h
  | succ j ih =>
    rw [initWord_succ, initWord_succ] at h
    exact ih (init_step_inj _ _ _ (initWord_lt s1 j) (initWord_lt s2 j) h)

/-- C15: for every two seeds whose low 32 bits differ, the two sequences of the
first 624 values returned by `MTrand_int32` after `MTrand_init` differ in at least
one position. -/
theorem C15_different_seeds_differ (w : Nat) (hw : 32 ≤ w) (g1 g2 : MTrand_Info)
    (hg1 : g1.state.length = 624) (hg2 : g2.state.length = 624) (s1 s2 : Nat)
    (h : s1 % 2 ^ 32 ≠ s2 % 2 ^ 32) :
    ∃ n a b, 1 ≤ n ∧ n ≤ 624
      ∧ (MTrand_init w g1 s1).bind (nthCall w n) = some a
      ∧ (MTrand_init w g2 s2).bind (nthCall w n) = some b ∧ a ≠ b := by
  by_contra hcon
  have key : ∀ n, 1 ≤ n → n ≤ 624 →
      mtSeq (initWord s1) (623 + n) = mtSeq (initWord s2) (623 + n) := by
    intro n hn1 hn2
    by_contra hne
    exact hcon ⟨n, _, _, hn1, hn2, nth_value w hw g1 hg1 s1 n hn1,
      nth_value w hw g2 hg2 s2 n hn1, fun ht => hne (temper_injective _ _ ht)⟩
  have hx1 := mtSeq_isMTSeq (initWord s1)
  have hx2 := mtSeq_isMTSeq (initWord s2)
  have ta : MTrand_twiddle (initWord s1 227) (initWord s1 228)
      = MTrand_twiddle (initWord s2 227) (initWord s2 228) := by
    have t1 := seq_twiddle _ hx1 227
    have t2 := seq_twiddle _ hx2 227
    rw [show 227 + 397 = 623 + 1 from rfl, show 227 + 624 = 623 + 228 from rfl,
      mtSeq_of_lt _ 227 (by decide), mtSeq_of_lt _ (227 + 1) (by decide)] at t1 t2
    rw [t1, t2, key 1 (by decide) (by decide), key 228 (by decide) (by decide)]
  have tb : MTrand_twiddle (initWord s1 228) (initWord s1 229)
      = MTrand_twiddle (initWord s2 228) (initWord s2 229) := by
    have t1 := seq_twiddle _ hx1 228
    have t2 := seq_twiddle _ hx2 228
    rw [show 228 + 397 = 623 + 2 from rfl, show 228 + 624 = 623 + 229 from rfl,
      mtSeq_of_lt _ 228 (by decide), mtSeq_of_lt _ (228 + 1) (by decide)] at t1 t2
    rw [t1, t2, key 2 (by decide) (by decide), key 229 (by decide) (by decide)]
  have e228 : initWord s1 228 = initWord s2 228 :=
    eq_of_testBit_split _ _ (initWord_lt s1 228) (initWord_lt s2 228)
      (MTrand_twiddle_inj _ _ _ _ tb).1 (MTrand_twiddle_inj _ _ _ _ ta).2
  exact h (initWord_inj s1 s2 228 e228)

/-- Witness of C15: the seeds 5489 and 5490 on a 64-bit host. -/
theorem C15_different_seeds_differ_witness :
    ∃ n a b, 1 ≤ n ∧ n ≤ 624
      ∧ (MTrand_init 64 { state := List.replicate 624 0, p := 0 } 5489).bind (nthCall 64 n)
          = some a
      ∧ (MTrand_init 64 { state := List.replicate 624 0, p := 0 } 5490).bind (nthCall 64 n)
          = some b ∧ a ≠ b :=
  C15_different_seeds_differ 64 (by decide) { state := List.replicate 624 0, p := 0 }
    { state := List.replicate 624 0, p := 0 } (List.length_replicate 624 0)
    (List.length_replicate 624 0) 5489 5490 (by decide)

theorem state_as_block (st : List Nat) (hlen : st.length = 624) :
    ∃ x, IsMTSeq x ∧ st = block x 0 ∧ ∀ j, j < 624 → st[j]? = some (x j) := by
  refine ⟨mtSeq fun j => st.getD j 0, mtSeq_isMTSeq _, block_mtSeq_zero st hlen, ?_⟩
  intro j hj
  rw [mtSeq_of_lt _ _ hj, List.getD_eq_getElem?_getD, List.getElem?_eq_getElem (by omega)]
  rfl

/-- C16: for every state with pre-twist words `old` and post-twist words `new`
left by `MTrand_gen_state`: for `0 ≤ i < 227`,
`new[i] = old[i+397] XOR MTrand_twiddle(old[i], old[i+1])`; for `227 ≤ i < 623`,
`new[i] = new[i-227] XOR MTrand_twiddle(old[i], old[i+1])`; and
`new[623] = new[396] XOR MTrand_twiddle(old[623], new[0])`. -/
theorem C16_in_place_twist_equations (s : MTrand_Info) (hlen : s.state.length = 624) :
    ∃ s', MTrand_gen_state s = some s' ∧ s'.state.length = 624
      ∧ (∀ i, i < 227 → ∃ a u v, s.state[i + 397]? = some a ∧ s.state[i]? = some u
          ∧ s.state[i + 1]? = some v ∧ s'.state[i]? = some (a ^^^ MTrand_twiddle u v))
      ∧ (∀ i, 227 ≤ i → i < 623 → ∃ a u v, s'.state[i - 227]? = some a
          ∧ s.state[i]? = some u ∧ s.state[i + 1]? = some v
          ∧ s'.state[i]? = some (a ^^^ MTrand_twiddle u v))
      ∧ ∃ a u v, s'.state[396]? = some a ∧ s.state[623]? = some u
          ∧ s'.state[0]? = some v ∧ s'.state[623]? = some (a ^^^ MTrand_twiddle u v) := by
  obtain ⟨x, hx, hs, hold⟩ := state_as_block s.state hlen
  have hgen := MTrand_gen_state_block x hx 0 s.p
  rw [← hs, Nat.zero_add] at hgen
  have hnew : ∀ j, j < 624 → (block x 624)[j]? = some (x (624 + j)) :=
    fun j hj => block_getElem? x 624 j hj
  refine ⟨_, hgen, block_length _ _, ?_, ?_, ?_⟩
  · intro i hi
    refine ⟨_, _, _, hold (i + 397) (by omega), hold i (by omega), hold (i + 1) (by omega), ?_⟩
    rw [hnew i (by omega), show 624 + i = i + 624 by omega, hx i]
  · intro i h1 h2
    refine ⟨_, _, _, hnew (i - 227) (by omega), hold i (by omega), hold (i + 1) (by omega), ?_⟩
    rw [hnew i (by omega), show 624 + i = i + 624 by omega, hx i,
      show 624 + (i - 227) = i + 397 by omega]
  · refine ⟨_, _, _, hnew 396 (by omega), hold 623 (by omega), hnew 0 (by omega), ?_⟩
    rw [hnew 623 (by omega), show 624 + 623 = 623 + 624 by rfl, hx 623]

/-- Witness of C16: the state holding the words 0, 1, ..., 623. -/
theorem C16_in_place_twist_equations_witness :
    ∃ s', MTrand_gen_state { state := List.range 624, p := 624 } = some s'
      ∧ s'.state.length = 624
      ∧ (∀ i, i < 227 → ∃ a u v,
          ({ state := List.range 624, p := 624 } : MTrand_Info).state[i + 397]? = some a
          ∧ ({ state := List.range 624, p := 624 } : MTrand_Info).state[i]? = some u
          ∧ ({ state := List.range 624, p := 624 } : MTrand_Info).state[i + 1]? = some v
          ∧ s'.state[i]? = some (a ^^^ MTrand_twiddle u v))
      ∧ (∀ i, 227 ≤ i → i < 623 → ∃ a u v, s'.state[i - 227]? = some a
          ∧ ({ state := List.range 624, p := 624 } : MTrand_Info).state[i]? = some u
          ∧ ({ state := List.range 624, p := 624 } : MTrand_Info).state[i + 1]? = some v
          ∧ s'.state[i]? = some (a ^^^ MTrand_twiddle u v))
      ∧ ∃ a u v, s'.state[396]? = some a
          ∧ ({ state := List.range 624, p := 624 } : MTrand_Info).state[623]? = some u
          ∧ s'.state[0]? = some v ∧ s'.state[623]? = some (a ^^^ MTrand_twiddle u v) :=
  C16_in_place_twist_equations { state := List.range 624, p := 624 }
    (by simp only [List.length_range])

theorem initWord_congr (s1 s2 : Nat) (h : s1 % 2 ^ 32 = s2 % 2 ^ 32) (i : Nat) :
    initWord s1 i = initWord s2 i := by
  induction i with
  | zero => exact h
  | succ j ih => rw [initWord, initWord, ih]

/-- C17: for every two seeds that agree in their low 32 bits, `MTrand_init`
produces identical generators (same 624 words, same position), and every
subsequent value of `MTrand_int32` is the same: bits of the seed above bit 31
never influence the output. -/
theorem C17_seed_low_bits_only (w : Nat) (hw : 32 ≤ w) (g1 g2 : MTrand_Info)
    (hg1 : g1.state.length = 624) (hg2 : g2.state.length = 624) (s1 s2 : Nat)
    (h : s1 % 2 ^ 32 = s2 % 2 ^ 32) :
    ∃ G, MTrand_init w g1 s1 = some G ∧ MTrand_init w g2 s2 = some G
      ∧ G.state.length = 624 ∧ G.p = 624
      ∧ ∀ n, 1 ≤ n → ∃ v, (MTrand_init w g1 s1).bind (nthCall w n) = some v
          ∧ (MTrand_init w g2 s2).bind (nthCall w n) = some v := by
  have hb : block (initWord s2) 0 = block (initWord s1) 0 :=
    eq_block _ 0 _ (block_length _ _) (fun j hj => by
      rw [block_getElem? _ _ j hj, initWord_congr s1 s2 h])
  have e1 := MTrand_init_eq w hw g1 s1 hg1
  have e2 := MTrand_init_eq w hw g2 s2 hg2
  rw [hb] at e2
  refine ⟨_, e1, e2, block_length _ _, rfl, ?_⟩
  intro n hn
  refine ⟨temper (mtSeq (initWord s1) (623 + n)), ?_, ?_⟩
  · rw [e1, Option.some_bind, block_initWord, cast624]
    exact nthCall_block w hw _ (mtSeq_isMTSeq _) n hn
  · rw [e2, Option.some_bind, block_initWord, cast624]
    exact nthCall_block w hw _ (mtSeq_isMTSeq _) n hn

/-- Witness of C17: the seeds 5489 and `2^32 + 5489` on a 64-bit host. -/
theorem C17_seed_low_bits_only_witness :
    ∃ G, MTrand_init 64 { state := List.replicate 624 0, p := 0 } 5489 = some G
      ∧ MTrand_init 64 { state := List.replicate 624 7, p := 3 } (2 ^ 32 + 5489) = some G
      ∧ G.state.length = 624 ∧ G.p = 624
      ∧ ∀ n, 1 ≤ n →
          ∃ v, (MTrand_init 64 { state := List.replicate 624 0, p := 0 } 5489).bind
                (nthCall 64 n) = some v
            ∧ (MTrand_init 64 { state := List.replicate 624 7, p := 3 } (2 ^ 32 + 5489)).bind
                (nthCall 64 n) = some v :=
  C17_seed_low_bits_only 64 (by decide) { state := List.replicate 624 0, p := 0 }
    { state := List.replicate 624 7, p := 3 } (List.length_replicate 624 0)
    (List.length_replicate 624 7) 5489 (2 ^ 32 + 5489) (by decide)

/-- C18: the tempering transform applied by `MTrand_int32` is a bijection on
32-bit words: the value returned for the word `x` read at the position is
`temper x`, two different words below `2^32` give different values, and every
value below `2^32` is the tempering of some word below `2^32`. -/
theorem C18_temper_bijective (w : Nat) (hw : 32 ≤ w) :
    (∀ (st : List Nat) (P x : Nat), st.length = 624 → P < 624 → st[P]? = some x →
        (MTrand_int32 w { state := st, p := (P : Int) }).map Prod.fst = some (temper x))
      ∧ (∀ x y, x < 2 ^ 32 → y < 2 ^ 32 → x ≠ y → temper x ≠ temper y)
      ∧ (∀ x, x < 2 ^ 32 → temper x < 2 ^ 32)
      ∧ ∀ v, v < 2 ^ 32 → ∃ x, x < 2 ^ 32 ∧ temper x = v := by
  refine ⟨?_, ?_, temper_lt, temper_surjective⟩
  · intro st P x _ hP hx
    rw [MTrand_int32_word w hw st P x hP hx, Option.map_some']
  · intro x y _ _ hne h
    exact hne (temper_injective x y h)

/-- Witness of C18: a 64-bit host. -/
theorem C18_temper_bijective_witness :
    (∀ (st : List Nat) (P x : Nat), st.length = 624 → P < 624 → st[P]? = some x →
        (MTrand_int32 64 { state := st, p := (P : Int) }).map Prod.fst = some (temper x))
      ∧ (∀ x y, x < 2 ^ 32 → y < 2 ^ 32 → x ≠ y → temper x ≠ temper y)
      ∧ (∀ x, x < 2 ^ 32 → temper x < 2 ^ 32)
      ∧ ∀ v, v < 2 ^ 32 → ∃ x, x < 2 ^ 32 ∧ temper x = v :=
  C18_temper_bijective 64 (by decide)

theorem mem_block_of (x : Nat → Nat) (b j : Nat) (hj : j < 624) : x (b + j) ∈ block x b :=
  List.getElem?_mem (block_getElem? x b j hj)

/-- One step backwards: when the 624 words after index `k + 1` are zero, so is
word `k + 1`. -/
theorem zero_window_back (x : Nat → Nat) (hx : IsMTSeq x) (hlt : ∀ n, x n < 2 ^ 32)
    (k : Nat) (hz : ∀ j, k + 2 ≤ j → j ≤ k + 625 → x j = 0) : x (k + 1) = 0 := by
  have t1 := seq_twiddle x hx k
  have t2 := seq_twiddle x hx (k + 1)
  rw [hz (k + 397) (by omega) (by omega), hz (k + 624) (by omega) (by omega)] at t1
  rw [hz (k + 1 + 397) (by omega) (by omega), hz (k + 1 + 624) (by omega) (by omega)] at t2
  exact word_zero_of_twiddle _ _ _ (hlt _) t1 t2

theorem zero_window_down (x : Nat → Nat) (hx : IsMTSeq x) (hlt : ∀ n, x n < 2 ^ 32)
    (d : Nat) (hz : ∀ j, 1 + d ≤ j → j ≤ 1 + d + 623 → x j = 0) :
    ∀ j, 1 ≤ j → j ≤ 624 → x j = 0 := by
  induction d with
  | zero => intro j h1 h2; exact hz j (by omega) (by omega)
  | succ e ih =>
    apply ih
    intro j h1 h2
    by_cases hj : j = 1 + e
    · subst hj
      have := zero_window_back x hx hlt e (fun i hi1 hi2 => hz i (by omega) (by omega))
      rw [show 1 + e = e + 1 by omega]
      exact this
    · exact hz j (by omega) (by omega)

theorem seeded_block_ne_zero (seed b : Nat)
    (hz : ∀ j, j < 624 → mtSeq (initWord seed) (b + j) = 0) : False := by
  have hx := mtSeq_isMTSeq (initWord seed)
  have h12 : ∀ j, 1 ≤ j → j ≤ 624 → mtSeq (initWord seed) j = 0 := by
    by_cases hb : b = 0
    · subst hb
      intro j h1 h2
      by_cases hj : j < 624
      · have := hz j hj
        rw [Nat.zero_add] at this
        exact this
      · have h624 : j = 623 + 1 := by omega
        subst h624
        have t := hx 0
        have a1 := hz 397 (by decide)
        have a2 := hz 0 (by decide)
        have a3 := hz 1 (by decide)
        rw [Nat.zero_add] at a1 a2 a3 t
        rw [Nat.zero_add, Nat.zero_add, a1, a2, a3, MTrand_twiddle_zero] at t
        exact t
    · apply zero_window_down _ hx (seeded_seq_lt seed) (b - 1)
      intro j h1 h2
      have := hz (j - b) (by omega)
      rw [show b + (j - b) = j by omega] at this
      exact this
  have h1 := h12 1 (by decide) (by decide)
  have h2 := h12 2 (by decide) (by decide)
  rw [mtSeq_of_lt _ 1 (by decide)] at h1
  rw [mtSeq_of_lt _ 2 (by decide), show (2 : Nat) = 1 + 1 from rfl, initWord_succ, h1] at h2
  exact absurd h2 (by decide)

/-- C19: for every seed and every number `n ≥ 0` of `MTrand_int32` calls after
`MTrand_init`, the 624-word state vector is not all zero. -/
theorem C19_state_never_all_zero (w : Nat) (hw : 32 ≤ w) (g : MTrand_Info)
    (hg : g.state.length = 624) (seed n : Nat) :
    ∃ G Gn, MTrand_init w g seed = some G ∧ afterCalls w n G = some Gn
      ∧ Gn.state.length = 624 ∧ ∃ v, v ∈ Gn.state ∧ v ≠ 0 := by
  obtain ⟨b, P, hc, _, _, _, _⟩ :=
    afterCalls_block w hw (mtSeq (initWord seed)) (mtSeq_isMTSeq _) n
  rw [← block_initWord, ← cast624] at hc
  refine ⟨_, _, MTrand_init_eq w hw g seed hg, hc, block_length _ _, ?_⟩
  by_contra hcon
  apply seeded_block_ne_zero seed b
  intro j hj
  by_contra hne
  exact hcon ⟨_, mem_block_of _ b j hj, hne⟩

/-- Witness of C19: seed 0 on a 64-bit host, after 1248 draws. -/
theorem C19_state_never_all_zero_witness :
    ∃ G Gn, MTrand_init 64 { state := List.replicate 624 0, p := 0 } 0 = some G
      ∧ afterCalls 64 1248 G = some Gn
      ∧ Gn.state.length = 624 ∧ ∃ v, v ∈ Gn.state ∧ v ≠ 0 :=
  C19_state_never_all_zero 64 (by decide) { state := List.replicate 624 0, p := 0 }
    (List.length_replicate 624 0) 0 1248

end MTrand
